import Mathlib

/-!
Verification development for the axios-spring token-refresh core
(`src/api.ts`, most evolved variant: the one holding its refresh state in
`refreshingStateMap`, a per-instance map keyed by the client instance).

JavaScript strings are modelled as Lean `String`s, except in `joinUrl`
where character-level reasoning is needed and strings are modelled as
`List Char` (the character sequence of the JS string).  JS numbers used
for Unix timestamps are modelled as `Int`.  Async code is modelled two
ways, both translated from the same source:

* a sequential denotation (`refreshAuthToken`, `ensureFreshSeq`, ...)
  giving the value computed by one call running alone, used for the
  functional claims; and
* a small-step machine (`stepTask`) over explicit per-task program
  counters whose atomic steps are exactly the synchronous segments
  between `await` suspension points of the source, used for the
  concurrency claims (single flight, waiter broadcast, instance
  isolation).
-/

deriving instance DecidableEq for Except

namespace AxiosSpring

/-! ## joinUrl (src/api.ts lines 237-241), strings as char lists

Source:
```
function joinUrl(baseUrl: string, path: string): string {
  if (!baseUrl.endsWith('/')) baseUrl += '/';
  if (path.startsWith('/')) path = path.slice(1);
  return baseUrl + path;
}
```
-/

/-- `s.endsWith('/')` on the character sequence of a JS string. -/
def endsWithSlash (s : List Char) : Bool := s.getLast? = some '/'

/-- `s.startsWith('/')` on the character sequence of a JS string. -/
def startsWithSlash (s : List Char) : Bool := s.head? = some '/'

/-- `joinUrl` from src/api.ts: append `'/'` to `baseUrl` unless it already
ends with one, drop a leading `'/'` from `path`, concatenate. -/
def joinUrl (baseUrl path : List Char) : List Char :=
  let b := if endsWithSlash baseUrl then baseUrl else baseUrl ++ ['/']
  let p := if startsWithSlash path then path.tail else path
  b ++ p

/-- `baseUrl` with one trailing `'/'` removed when present (specification
helper used to state the junction property). -/
def dropTrailingSlash (s : List Char) : List Char :=
  if endsWithSlash s then s.dropLast else s

/-- `path` with one leading `'/'` removed when present (specification
helper used to state the junction property). -/
def dropLeadingSlash (s : List Char) : List Char :=
  if startsWithSlash s then s.tail else s

/-- C10: the refresh URL built by `joinUrl` is `baseUrl` and the endpoint
path joined with exactly one `'/'` at the junction: the result is
`baseUrl` minus its trailing slash (if any), one `'/'`, then the path
minus its leading slash (if any) — for every `baseUrl` and `path`,
whether or not they carry their own slash at the junction, and no
character away from the junction is dropped. -/
theorem joinUrl_single_slash_junction (b p : List Char) :
    joinUrl b p = dropTrailingSlash b ++ '/' :: dropLeadingSlash p := by
  unfold joinUrl dropTrailingSlash dropLeadingSlash
  by_cases hb : endsWithSlash b = true
  · have hlast : b.dropLast ++ ['/'] = b := by
      have h : b.getLast? = some '/' := by
        have h2 := hb
        unfold endsWithSlash at h2
        exact of_decide_eq_true h2
      exact List.dropLast_append_getLast? '/' h
    rw [if_pos hb, if_pos hb]
    conv_lhs => rw [← hlast]
    simp [List.append_assoc]
  · rw [if_neg hb, if_neg hb]
    simp [List.append_assoc]

/-! ## Data model for the refresh core

The Token Store is an external collaborator with a get/set/remove
contract; it is modelled as a key-value map `String → Option String`
(JS `getItem` returns `string | null`). -/

/-- The persistent key-value token store. -/
def Store : Type := String → Option String

/-- `Storage.getItem`. -/
def getItem (st : Store) (k : String) : Option String := st k

/-- `Storage.setItem`. -/
def setItem (st : Store) (k v : String) : Store :=
  fun x => if x = k then some v else st x

/-- `Storage.removeItem`. -/
def removeItem (st : Store) (k : String) : Store :=
  fun x => if x = k then none else st x

/-- JS truthiness of a `string | null` value: `null` and the empty string
are falsy (`if (!x) ...`). -/
def truthy : Option String → Option String
  | none => none
  | some s => if s = "" then none else some s

/-- Possible behaviours of the external `jsonwebtoken` `decode` call on a
token string: it may throw, return `null`, or return a payload whose
`exp` field is a number (`some`) or absent / not a number (`none`). -/
inductive DecodeOut : Type
  | throws : DecodeOut
  | nullPayload : DecodeOut
  | payload : Option Int → DecodeOut
deriving DecidableEq, Repr

/-- Outcome of the refresh POST (`axios.post(refreshEndpointUrl, ...)`)
followed by reading `accessToken` / `refreshToken` off `response.data`:
either a transport / non-2xx throw, or a response whose two extracted
fields may each be absent. -/
inductive NetResp : Type
  | fail : NetResp
  | ok : Option String → Option String → NetResp
deriving DecidableEq, Repr

/-- The fixed external world of one run: the JWT decoder, the current
Unix time (`Math.floor(Date.now() / 1000)`), and the refresh endpoint's
behaviour as a function of the URL and the posted refresh token. -/
structure Env where
  rawDecode : String → DecodeOut
  now : Int
  net : String → String → NetResp

/-- Per-instance configuration wired by `initializeApiInstance`.
`hasOnRefreshFailure` records whether the optional `onRefreshFailure`
callback was configured. -/
structure InstCfg where
  accessKey : String
  refreshKey : String
  refreshUrl : String
  bufferSeconds : Int
  hasOnRefreshFailure : Bool
deriving DecidableEq, Repr

instance : Inhabited InstCfg := ⟨⟨"", "", "", 0, false⟩⟩

/-- `decodeJWT` from src/api.ts: wrap the external decode in try/catch,
return `{exp}` only when the payload exists and `exp` is a number. -/
def decodeJWT (env : Env) (token : String) : Option Int :=
  match env.rawDecode token with
  | .throws => none
  | .nullPayload => none
  | .payload e => e

/-- The three refresh failure modes named by the spec's error taxonomy:
no refresh token in storage, transport / non-2xx failure, and a refresh
response missing either token. -/
inductive RefreshErr : Type
  | noRefreshToken : RefreshErr
  | transport : RefreshErr
  | invalidResponse : RefreshErr
deriving DecidableEq, Repr

/-- Result of one `refreshAuthToken` invocation: the thrown error or the
returned pair, the storage afterwards, and how many storage writes were
performed. -/
structure RefreshOut where
  result : Except RefreshErr (String × String)
  store : Store
  writes : Nat

/-- `refreshAuthToken` from src/api.ts (lines 243-262): read the refresh
token (throw if falsy), POST to the refresh endpoint (transport errors
throw), extract both tokens, throw if either is falsy, then persist both
and return them. -/
def refreshAuthToken (env : Env) (ic : InstCfg) (st : Store) : RefreshOut :=
  match truthy (getItem st ic.refreshKey) with
  | none => ⟨.error .noRefreshToken, st, 0⟩
  | some rt =>
    match env.net ic.refreshUrl rt with
    | .fail => ⟨.error .transport, st, 0⟩
    | .ok a r =>
      match truthy a, truthy r with
      | some a2, some r2 =>
        ⟨.ok (a2, r2), setItem (setItem st ic.accessKey a2) ic.refreshKey r2, 2⟩
      | _, _ => ⟨.error .invalidResponse, st, 0⟩

/-- Result of one `ensureFreshAccessToken` call running alone: the
returned `string | null`, the storage afterwards, whether the stale
branch invoked `refreshAuthToken`, the number of storage writes, and the
refresh error caught by the catch block (if any). -/
structure EnsureOut where
  result : Option String
  store : Store
  refreshAttempted : Bool
  writes : Nat
  refreshError : Option RefreshErr

/-- `ensureFreshAccessToken` from src/api.ts (lines 264-313) as run by a
single caller with no refresh in flight (`isRefreshing = false`): read
the access token (null if falsy), decode it (null on failure), return it
unchanged when `timeLeft > bufferSeconds`, otherwise run
`refreshAuthToken`, returning the new access token on success and null
on any caught error. -/
def ensureFreshSeq (env : Env) (ic : InstCfg) (st : Store) : EnsureOut :=
  match truthy (getItem st ic.accessKey) with
  | none => ⟨none, st, false, 0, none⟩
  | some tok =>
    match decodeJWT env tok with
    | none => ⟨none, st, false, 0, none⟩
    | some exp =>
      if exp - env.now > ic.bufferSeconds then ⟨some tok, st, false, 0, none⟩
      else
        let r := refreshAuthToken env ic st
        match r.result with
        | .ok (a, _) => ⟨some a, r.store, true, r.writes, none⟩
        | .error e => ⟨none, r.store, true, r.writes, some e⟩

/-- `isAuthenticated` from src/api.ts (lines 356-369): run the freshness
gate with the configured buffer, return `null` for a falsy token,
otherwise the decoded claims (`decoded ?? null`). -/
def isAuthenticatedSeq (env : Env) (ic : InstCfg) (st : Store) : Option Int :=
  match truthy (ensureFreshSeq env ic st).result with
  | none => none
  | some tok => decodeJWT env tok

/-! ## C2: refresh atomicity -/

/-- C2: a refresh invocation either succeeds with exactly one write pair
(the new access token under `accessKey`, then the new refresh token
under `refreshKey`) or fails with zero storage writes and storage
untouched; in particular a response with either extracted token falsy
(missing or empty) fails with the invalid-response error and persists
nothing. -/
theorem refresh_atomicity (env : Env) (ic : InstCfg) (st : Store) :
    (∀ a r, (refreshAuthToken env ic st).result = .ok (a, r) →
      (refreshAuthToken env ic st).writes = 2 ∧
      (refreshAuthToken env ic st).store =
        setItem (setItem st ic.accessKey a) ic.refreshKey r) ∧
    (∀ e, (refreshAuthToken env ic st).result = .error e →
      (refreshAuthToken env ic st).writes = 0 ∧
      (refreshAuthToken env ic st).store = st) ∧
    (∀ rt a r, truthy (getItem st ic.refreshKey) = some rt →
      env.net ic.refreshUrl rt = .ok a r →
      truthy a = none ∨ truthy r = none →
      (refreshAuthToken env ic st).result = .error .invalidResponse) := by
  cases h1 : truthy (getItem st ic.refreshKey) with
  | none =>
    have heq : refreshAuthToken env ic st = ⟨.error .noRefreshToken, st, 0⟩ := by
      unfold refreshAuthToken
      simp only [h1]
    refine ⟨?_, ?_, ?_⟩ <;> simp [heq, h1]
  | some rt =>
    cases h2 : env.net ic.refreshUrl rt with
    | fail =>
      have heq : refreshAuthToken env ic st = ⟨.error .transport, st, 0⟩ := by
        unfold refreshAuthToken
        simp only [h1, h2]
      refine ⟨?_, ?_, ?_⟩ <;> simp [heq, h1, h2]
      intro rt1 a r hrt hnet
      subst hrt
      rw [h2] at hnet
      cases hnet
    | ok a r =>
      cases h3 : truthy a with
      | none =>
        have heq : refreshAuthToken env ic st = ⟨.error .invalidResponse, st, 0⟩ := by
          unfold refreshAuthToken
          simp only [h1, h2, h3]
        refine ⟨?_, ?_, ?_⟩ <;> simp [heq, h1, h2, h3]
      | some a2 =>
        cases h4 : truthy r with
        | none =>
          have heq : refreshAuthToken env ic st = ⟨.error .invalidResponse, st, 0⟩ := by
            unfold refreshAuthToken
            simp only [h1, h2, h3, h4]
          refine ⟨?_, ?_, ?_⟩ <;> simp [heq, h1, h2, h3, h4]
        | some r2 =>
          have heq : refreshAuthToken env ic st =
              ⟨.ok (a2, r2), setItem (setItem st ic.accessKey a2) ic.refreshKey r2, 2⟩ := by
            unfold refreshAuthToken
            simp only [h1, h2, h3, h4]
          refine ⟨?_, ?_, ?_⟩ <;> simp [heq, h1, h2, h3, h4]
          intro rt1 a3 r3 hrt hnet
          subst hrt
          rw [h2] at hnet
          injection hnet with ha hr
          subst ha
          subst hr
          simp [h3, h4]

/-- C2 witness. -/
theorem refresh_atomicity_witness :
    (refreshAuthToken
        ⟨fun _ => .payload none, 0, fun _ _ => .ok (some "a1") none⟩
        ⟨"ak", "rk", "u", 0, false⟩
        (fun k => if k = "rk" then some "rt" else none)).result
      = .error .invalidResponse := by
  have h := (refresh_atomicity
      ⟨fun _ => .payload none, 0, fun _ _ => .ok (some "a1") none⟩
      ⟨"ak", "rk", "u", 0, false⟩
      (fun k => if k = "rk" then some "rt" else none)).2.2
  exact h "rt" (some "a1") none (by decide) (by decide) (by decide)

/-! ## C4: freshness boundary -/

/-- C4: for a stored decodable access token, the freshness gate returns
the token unchanged with no refresh attempt exactly when
`timeLeft = exp - now` is strictly greater than `bufferSeconds`; a token
with `timeLeft` exactly equal to the buffer triggers a refresh attempt,
and with `bufferSeconds = 0` a refresh is attempted unless the token
expires strictly in the future. -/
theorem freshness_boundary (env : Env) (ic : InstCfg) (st : Store)
    (tok : String) (exp : Int)
    (htok : getItem st ic.accessKey = some tok) (hne : tok ≠ "")
    (hdec : decodeJWT env tok = some exp) :
    (((ensureFreshSeq env ic st).result = some tok ∧
        (ensureFreshSeq env ic st).refreshAttempted = false) ↔
      exp - env.now > ic.bufferSeconds) ∧
    (exp - env.now = ic.bufferSeconds →
      (ensureFreshSeq env ic st).refreshAttempted = true) ∧
    (ic.bufferSeconds = 0 →
      ((ensureFreshSeq env ic st).refreshAttempted = false ↔
        exp - env.now > 0)) := by
  have h1 : truthy (getItem st ic.accessKey) = some tok := by
    rw [htok]
    simp [truthy, hne]
  by_cases hfresh : exp - env.now > ic.bufferSeconds
  · have he : ensureFreshSeq env ic st = ⟨some tok, st, false, 0, none⟩ := by
      unfold ensureFreshSeq
      simp only [h1, hdec]
      rw [if_pos hfresh]
    refine ⟨by simp [he, hfresh], by intro hb; omega, by intro hb; simp [he]; omega⟩
  · have hatt : (ensureFreshSeq env ic st).refreshAttempted = true := by
      unfold ensureFreshSeq
      simp only [h1, hdec]
      rw [if_neg hfresh]
      cases hr : (refreshAuthToken env ic st).result with
      | ok p => cases p; simp [hr]
      | error e => simp [hr]
    refine ⟨?_, fun _ => hatt, ?_⟩
    · constructor
      · rintro ⟨-, hfalse⟩
        rw [hatt] at hfalse
        cases hfalse
      · intro h
        exact absurd h hfresh
    · intro hb
      rw [hatt]
      constructor
      · intro h
        cases h
      · intro h
        rw [hb] at hfresh
        exact absurd h hfresh

/-- C4 witness: a token whose `timeLeft` exceeds the buffer is returned
unchanged with no refresh. -/
theorem freshness_boundary_witness :
    (ensureFreshSeq
        ⟨fun _ => .payload (some 100), 0, fun _ _ => .fail⟩
        ⟨"ak", "rk", "u", 30, false⟩
        (fun k => if k = "ak" then some "t1" else none)).result = some "t1" := by
  have h := (freshness_boundary
      ⟨fun _ => .payload (some 100), 0, fun _ _ => .fail⟩
      ⟨"ak", "rk", "u", 30, false⟩
      (fun k => if k = "ak" then some "t1" else none)
      "t1" 100 (by decide) (by decide) (by decide)).1
  exact (h.mpr (by decide)).1

/-! ## C7: error containment at the Freshness Gate -/

/-- A truthy string value is a nonempty `some`. -/
theorem truthy_eq_some {x : Option String} {s : String} (h : truthy x = some s) :
    x = some s ∧ s ≠ "" := by
  cases x with
  | none => cases h
  | some t =>
    by_cases ht : t = ""
    · simp [truthy, ht] at h
    · simp [truthy, ht] at h
      subst h
      exact ⟨rfl, ht⟩

/-- C7: every refresh-path error (any of the three refresh failure
modes) is caught at the gate and converted to a null result; a decode
failure or an absent/falsy stored token also yields null; a null gate
outcome makes `isAuthenticated` return null; and `isAuthenticated`
returns `some claims` only when the gate produced a token whose decode
succeeded — the model functions are total, so no failure ever escapes to
the caller. -/
theorem error_containment (env : Env) (ic : InstCfg) (st : Store) :
    (∀ e, (ensureFreshSeq env ic st).refreshAttempted = true →
      (refreshAuthToken env ic st).result = Except.error e →
      (ensureFreshSeq env ic st).result = none ∧
      (ensureFreshSeq env ic st).refreshError = some e ∧
      isAuthenticatedSeq env ic st = none) ∧
    (∀ tok, truthy (getItem st ic.accessKey) = some tok →
      decodeJWT env tok = none →
      (ensureFreshSeq env ic st).result = none ∧
      isAuthenticatedSeq env ic st = none) ∧
    (truthy (getItem st ic.accessKey) = none →
      (ensureFreshSeq env ic st).result = none ∧
      isAuthenticatedSeq env ic st = none) ∧
    ((ensureFreshSeq env ic st).result = none →
      isAuthenticatedSeq env ic st = none) ∧
    (∀ c, isAuthenticatedSeq env ic st = some c →
      ∃ tok, (ensureFreshSeq env ic st).result = some tok ∧
        decodeJWT env tok = some c) := by
  cases h1 : truthy (getItem st ic.accessKey) with
  | none =>
    have heq : ensureFreshSeq env ic st = ⟨none, st, false, 0, none⟩ := by
      unfold ensureFreshSeq
      simp only [h1]
    refine ⟨?_, ?_, ?_, ?_, ?_⟩ <;> simp [heq, isAuthenticatedSeq, truthy, h1]
  | some tok =>
    have hne : tok ≠ "" := (truthy_eq_some h1).2
    cases h2 : decodeJWT env tok with
    | none =>
      have heq : ensureFreshSeq env ic st = ⟨none, st, false, 0, none⟩ := by
        unfold ensureFreshSeq
        simp only [h1, h2]
      refine ⟨?_, ?_, ?_, ?_, ?_⟩ <;> simp [heq, isAuthenticatedSeq, truthy, h1, h2]
    | some exp =>
      by_cases h3 : exp - env.now > ic.bufferSeconds
      · have heq : ensureFreshSeq env ic st = ⟨some tok, st, false, 0, none⟩ := by
          unfold ensureFreshSeq
          simp only [h1, h2]
          rw [if_pos h3]
        have hia : isAuthenticatedSeq env ic st = some exp := by
          unfold isAuthenticatedSeq
          rw [heq]
          simp [truthy, hne, h2]
        refine ⟨?_, ?_, ?_, ?_, ?_⟩ <;> simp [heq, hia, h1, h2]
      · cases hr : (refreshAuthToken env ic st).result with
        | ok p =>
          obtain ⟨a, b⟩ := p
          have heq : ensureFreshSeq env ic st =
              ⟨some a, (refreshAuthToken env ic st).store, true,
                (refreshAuthToken env ic st).writes, none⟩ := by
            unfold ensureFreshSeq
            simp only [h1, h2]
            rw [if_neg h3]
            simp only [hr]
          refine ⟨?_, ?_, ?_, ?_, ?_⟩
          · intro e _ herr
            cases herr
          · intro tok2 htok2 hdec2
            cases htok2
            rw [h2] at hdec2
            cases hdec2
          · intro hnone
            cases hnone
          · intro hnone
            rw [heq] at hnone
            cases hnone
          · intro c hc
            unfold isAuthenticatedSeq at hc
            rw [heq] at hc
            by_cases ha : a = ""
            · simp [truthy, ha] at hc
            · simp [truthy, ha] at hc
              exact ⟨a, by rw [heq], by rw [hc]⟩
        | error e0 =>
          have heq : ensureFreshSeq env ic st =
              ⟨none, (refreshAuthToken env ic st).store, true,
                (refreshAuthToken env ic st).writes, some e0⟩ := by
            unfold ensureFreshSeq
            simp only [h1, h2]
            rw [if_neg h3]
            simp only [hr]
          have hia : isAuthenticatedSeq env ic st = none := by
            unfold isAuthenticatedSeq
            rw [heq]
            simp [truthy]
          refine ⟨?_, ?_, ?_, ?_, ?_⟩
          · intro e _ herr
            injection herr with he
            subst he
            exact ⟨by rw [heq], by rw [heq], hia⟩
          · intro tok2 htok2 hdec2
            cases htok2
            rw [h2] at hdec2
            cases hdec2
          · intro hnone
            cases hnone
          · intro _
            exact hia
          · intro c hc
            rw [hia] at hc
            cases hc

/-- C7 witness: a transport failure during refresh yields a null
`isAuthenticated` outcome. -/
theorem error_containment_witness :
    (ensureFreshSeq
        ⟨fun _ => .payload (some 10), 100, fun _ _ => .fail⟩
        ⟨"ak", "rk", "u", 30, false⟩
        (fun k => if k = "ak" then some "t1" else
          if k = "rk" then some "rt" else none)).result = none ∧
    isAuthenticatedSeq
        ⟨fun _ => .payload (some 10), 100, fun _ _ => .fail⟩
        ⟨"ak", "rk", "u", 30, false⟩
        (fun k => if k = "ak" then some "t1" else
          if k = "rk" then some "rt" else none) = none := by
  have h := (error_containment
      ⟨fun _ => .payload (some 10), 100, fun _ _ => .fail⟩
      ⟨"ak", "rk", "u", 30, false⟩
      (fun k => if k = "ak" then some "t1" else
        if k = "rk" then some "rt" else none)).1
  have h2 := h RefreshErr.transport (by decide) (by decide)
  exact ⟨h2.1, h2.2.2⟩

/-! ## Requests and the two interceptors -/

/-- JS object property assignment `headers[k] = v` on a header map kept
as an association list: overwrite in place when the key exists, append
otherwise. -/
def setHeader (hs : List (String × String)) (k v : String) : List (String × String) :=
  if hs.any (fun p => p.1 = k) then hs.map (fun p => if p.1 = k then (k, v) else p)
  else hs ++ [(k, v)]

/-- Header lookup. -/
def getHeader (hs : List (String × String)) (k : String) : Option String :=
  (hs.find? (fun p => p.1 == k)).map Prod.snd

/-- An outgoing request configuration: the transient `_retry` marker and
the (possibly unset) `headers` object. -/
structure Request where
  retry : Bool
  headers : Option (List (String × String))
deriving DecidableEq, Repr

/-- The default `attachAccessTokenToRequest` of `initializeApiInstance`
(src/api.ts lines 326-332): create `headers` when unset, then set
`Authorization` to `Bearer <token>`. -/
def attachAccessTokenToRequest (config : Request) (accessToken : String) : Request :=
  let hs := match config.headers with
    | none => []
    | some hs => hs
  { config with headers := some (setHeader hs "Authorization" ("Bearer " ++ accessToken)) }

/-- The request interceptor (src/api.ts lines 371-386): ask the gate for
a fresh token with the configured buffer; attach it if truthy, otherwise
return the configuration unchanged. -/
def requestInterceptor (env : Env) (ic : InstCfg) (st : Store) (config : Request) : Request :=
  match truthy (ensureFreshSeq env ic st).result with
  | some t => attachAccessTokenToRequest config t
  | none => config

/-- The error object handed to the response interceptor's rejection
handler: the HTTP status of the response (if any) and the originating
request configuration. -/
structure HttpError where
  status : Option Nat
  config : Request
deriving DecidableEq, Repr

/-- Observable outcome of the response interceptor's rejection handler:
the value it settles with, how many times the original request was
resubmitted, and whether the freshness gate was invoked. -/
structure Handle401Out (ρ : Type) where
  outcome : Except HttpError ρ
  resendCount : Nat
  refreshForced : Bool

/-- The response interceptor's rejection handler (src/api.ts lines
388-416): on a 401 whose request does not carry the retry marker, set
the marker, force the gate with `bufferSeconds = 0`, and if a token is
obtained re-attach it and resubmit the request once (`API(originalRequest)`,
abstracted as `resend`), returning that outcome; otherwise reject with
the original error. Any other error passes through. -/
def responseErrorInterceptor {ρ : Type} (env : Env) (ic : InstCfg) (st : Store)
    (resend : Request → Except HttpError ρ) (e : HttpError) : Handle401Out ρ :=
  if e.status = some 401 ∧ e.config.retry = false then
    let marked : Request := { e.config with retry := true }
    match truthy (ensureFreshSeq env { ic with bufferSeconds := 0 } st).result with
    | some t => ⟨resend (attachAccessTokenToRequest marked t), 1, true⟩
    | none => ⟨.error e, 0, true⟩
  else ⟨.error e, 0, false⟩

/-! ## C8: silent fallback in the request interceptor -/

/-- Looking up a key skips a non-matching leading header. -/
theorem getHeader_cons_ne {p : String × String} {t : List (String × String)} {k : String}
    (hp : p.1 ≠ k) : getHeader (p :: t) k = getHeader t k := by
  unfold getHeader
  rw [List.find?_cons_of_neg]
  simp [hp]

/-- Setting a header makes it readable back. -/
theorem getHeader_setHeader (hs : List (String × String)) (k v : String) :
    getHeader (setHeader hs k v) k = some v := by
  induction hs with
  | nil => simp [setHeader, getHeader]
  | cons p t ih =>
    by_cases hp : p.1 = k
    · simp [setHeader, getHeader, hp]
    · by_cases ht : t.any (fun q => q.1 = k)
      · have hs1 : setHeader (p :: t) k v = p :: t.map (fun q => if q.1 = k then (k, v) else q) := by
          simp [setHeader, hp, ht]
        have hs2 : setHeader t k v = t.map (fun q => if q.1 = k then (k, v) else q) := by
          simp [setHeader, ht]
        rw [hs1, getHeader_cons_ne hp]
        rw [hs2] at ih
        exact ih
      · have hs1 : setHeader (p :: t) k v = p :: (t ++ [(k, v)]) := by
          simp [setHeader, hp, ht]
        have hs2 : setHeader t k v = t ++ [(k, v)] := by
          simp [setHeader, ht]
        rw [hs1, getHeader_cons_ne hp]
        rw [hs2] at ih
        exact ih

/-- C8: when the gate yields no token the outgoing request configuration
is returned unchanged (no authorization attached, request not rejected);
when it yields a token the default attachment function is applied, which
sets the `Authorization: Bearer <token>` header. -/
theorem request_interceptor_silent_fallback (env : Env) (ic : InstCfg) (st : Store)
    (config : Request) :
    (truthy (ensureFreshSeq env ic st).result = none →
      requestInterceptor env ic st config = config) ∧
    (∀ t, truthy (ensureFreshSeq env ic st).result = some t →
      requestInterceptor env ic st config = attachAccessTokenToRequest config t ∧
      ∃ hs, (requestInterceptor env ic st config).headers = some hs ∧
        getHeader hs "Authorization" = some ("Bearer " ++ t)) := by
  constructor
  · intro h
    unfold requestInterceptor
    rw [h]
  · intro t h
    have he : requestInterceptor env ic st config = attachAccessTokenToRequest config t := by
      unfold requestInterceptor
      rw [h]
    refine ⟨he, ?_⟩
    rw [he]
    unfold attachAccessTokenToRequest
    exact ⟨_, rfl, getHeader_setHeader _ _ _⟩

/-- C8 witness: with an empty store the request goes out untouched; with
a fresh stored token the header is attached. -/
theorem request_interceptor_silent_fallback_witness :
    requestInterceptor
        ⟨fun _ => .payload (some 10), 100, fun _ _ => .fail⟩
        ⟨"ak", "rk", "u", 30, false⟩
        (fun _ => none)
        ⟨false, none⟩ = ⟨false, none⟩ := by
  exact (request_interceptor_silent_fallback
      ⟨fun _ => .payload (some 10), 100, fun _ _ => .fail⟩
      ⟨"ak", "rk", "u", 30, false⟩
      (fun _ => none)
      ⟨false, none⟩).1 (by decide)

/-! ## C3: 401 handling -/

/-- C3: a 401 response whose request does not carry the retry marker
sets the marker, forces the gate with `bufferSeconds = 0`, and when a
token is obtained resubmits the request exactly once with the token
re-attached and returns that outcome; when no token is obtained the
caller receives the original 401 error.  A 401 whose request already
carries the marker — or any non-401 error — is surfaced as-is with no
refresh and no resubmission, so a request is retried at most once. -/
theorem retry_on_401 {ρ : Type} (env : Env) (ic : InstCfg) (st : Store)
    (resend : Request → Except HttpError ρ) (e : HttpError) :
    (e.status = some 401 → e.config.retry = false →
      (∀ t, truthy (ensureFreshSeq env { ic with bufferSeconds := 0 } st).result = some t →
        responseErrorInterceptor env ic st resend e =
          ⟨resend (attachAccessTokenToRequest { e.config with retry := true } t), 1, true⟩) ∧
      (truthy (ensureFreshSeq env { ic with bufferSeconds := 0 } st).result = none →
        responseErrorInterceptor env ic st resend e = ⟨.error e, 0, true⟩)) ∧
    (e.config.retry = true →
      responseErrorInterceptor env ic st resend e = ⟨.error e, 0, false⟩) ∧
    (e.status ≠ some 401 →
      responseErrorInterceptor env ic st resend e = ⟨.error e, 0, false⟩) ∧
    (responseErrorInterceptor env ic st resend e).resendCount ≤ 1 := by
  refine ⟨?_, ?_, ?_, ?_⟩
  · intro h401 hretry
    constructor
    · intro t ht
      unfold responseErrorInterceptor
      rw [if_pos ⟨h401, hretry⟩]
      simp only [ht]
    · intro ht
      unfold responseErrorInterceptor
      rw [if_pos ⟨h401, hretry⟩]
      simp only [ht]
  · intro hretry
    unfold responseErrorInterceptor
    rw [if_neg (by simp [hretry])]
  · intro h401
    unfold responseErrorInterceptor
    rw [if_neg (by simp [h401])]
  · unfold responseErrorInterceptor
    by_cases hc : e.status = some 401 ∧ e.config.retry = false
    · rw [if_pos hc]
      cases ht : truthy (ensureFreshSeq env { ic with bufferSeconds := 0 } st).result <;> simp
    · rw [if_neg hc]
      simp

/-- C3 witness: a 401 with the retry marker already set passes through
untouched, and a first 401 with a failed refresh returns the original
error. -/
theorem retry_on_401_witness :
    responseErrorInterceptor (ρ := Unit)
        ⟨fun _ => .payload (some 10), 100, fun _ _ => .fail⟩
        ⟨"ak", "rk", "u", 30, false⟩
        (fun _ => none)
        (fun _ => .ok ())
        ⟨some 401, ⟨true, none⟩⟩ =
      ⟨.error ⟨some 401, ⟨true, none⟩⟩, 0, false⟩ := by
  exact (retry_on_401
      ⟨fun _ => .payload (some 10), 100, fun _ _ => .fail⟩
      ⟨"ak", "rk", "u", 30, false⟩
      (fun _ => none)
      (fun _ => .ok ())
      ⟨some 401, ⟨true, none⟩⟩).2.1 (by decide)

/-! ## Small-step machine for concurrent `ensureFreshAccessToken` calls

Each task is one in-flight `ensureFreshAccessToken` call on some client
instance.  A task's `Phase` is its program counter: the synchronous
segment it will execute next, the segments being delimited exactly by
the `await` suspension points of the source (storage reads/writes, the
refresh POST, and a waiter's pending promise).  The scheduler picks any
task to advance one atomic segment, modelling the single-threaded
cooperative event loop. -/

/-- Program counter of one `ensureFreshAccessToken` call.

* `start`: about to `await Storage.getItem(accessKey)`;
* `decide tok`: resumed with the value read; runs the decode /
  freshness / branch logic synchronously;
* `leadGetRT`: became the refreshing caller (`isRefreshing` was set) and
  entered `refreshAuthToken`, about to read the refresh token;
* `leadPost rt`: refresh POST in flight carrying refresh token `rt`;
* `leadWriteAccess a r` / `leadWriteRefresh a r`: persisting the new
  pair returned by the endpoint;
* `leadSettleOk a r`: `refreshAuthToken` returned `(a, r)`; about to
  resolve every queued waiter with `a`, clear the queue, reset
  `isRefreshing` and return `a`;
* `leadSettleFail`: `refreshAuthToken` threw; about to reject every
  queued waiter, clear the queue, reset `isRefreshing` and return null;
* `waiting`: enqueued on the in-flight refresh;
* `done res`: the call returned `res`. -/
inductive Phase : Type
  | start
  | decide (tok : Option String)
  | leadGetRT
  | leadPost (rt : String)
  | leadWriteAccess (a r : String)
  | leadWriteRefresh (a r : String)
  | leadSettleOk (a r : String)
  | leadSettleFail
  | waiting
  | done (res : Option String)
deriving DecidableEq, Repr

/-- One `ensureFreshAccessToken` call: the instance it runs on, the
`bufferSeconds` argument it was passed, and its program counter. -/
structure Task where
  inst : Nat
  buffer : Int
  phase : Phase
deriving DecidableEq, Repr

instance : Inhabited Task := ⟨⟨0, 0, .done none⟩⟩

/-- The per-instance refresh state held in `refreshingStateMap`
(src/api.ts lines 217-223): the in-flight flag and the queue of waiters
(`failedRequestsQueue`), waiters being identified by task index. -/
structure RState where
  isRefreshing : Bool
  queue : List Nat
deriving DecidableEq, Repr

instance : Inhabited RState := ⟨⟨false, []⟩⟩

/-- Global machine state: the shared token store, one `RState` per
instance (indexed by instance identity, as the WeakMap is), the tasks,
and two event counters: refresh POSTs initiated and failure-callback
invocations. -/
structure MState where
  store : Store
  rstates : List RState
  tasks : List Task
  netCalls : Nat
  cbCalls : Nat

/-- Refresh state of instance `i` (defaulting like an absent WeakMap
entry). -/
def rstateOf (s : MState) (i : Nat) : RState := s.rstates.getD i default

/-- Replace the phase of task `k`, leaving everything else intact. -/
def setTaskPhase (ts : List Task) (k : Nat) (ph : Phase) : List Task :=
  match ts.get? k with
  | none => ts
  | some t => ts.set k { t with phase := ph }

/-- `failedRequestsQueue.forEach(({resolve}) => resolve(v))`: settle
every queued waiter with the same outcome. -/
def resolveAll (ts : List Task) (q : List Nat) (res : Option String) : List Task :=
  q.foldl (fun acc idx => setTaskPhase acc idx (.done res)) ts

/-- Modelled from the spec: the `onRefreshFailure` callback invocation —
invoked with the raw refresh error in the catch block of the refreshing
caller, exactly once per failed refresh attempt, never per waiter.  The
callback itself is absent from src/api.ts (only the repository's tests
and README exercise it), so only its invocation count is modelled. -/
def cbIncrement (ic : InstCfg) : Nat := if ic.hasOnRefreshFailure then 1 else 0

/-- One atomic synchronous segment of task `k`, translated from
`ensureFreshAccessToken` / `refreshAuthToken` (src/api.ts lines 243-313):
every branch mirrors the corresponding segment of the source between two
`await` boundaries; shared state (store, refresh state, counters) is
read and written only inside the segment. -/
def stepTask (env : Env) (cfgs : List InstCfg) (s : MState) (k : Nat) : MState :=
  match s.tasks.get? k with
  | none => s
  | some t =>
    match t.phase with
    | .start =>
      { s with tasks := setTaskPhase s.tasks k (.decide (getItem s.store (cfgs.getD t.inst default).accessKey)) }
    | .decide tok =>
      match truthy tok with
      | none => { s with tasks := setTaskPhase s.tasks k (.done none) }
      | some tok2 =>
        match decodeJWT env tok2 with
        | none => { s with tasks := setTaskPhase s.tasks k (.done none) }
        | some exp =>
          if exp - env.now > t.buffer then
            { s with tasks := setTaskPhase s.tasks k (.done (some tok2)) }
          else if (rstateOf s t.inst).isRefreshing then
            { s with tasks := setTaskPhase s.tasks k .waiting,
                     rstates := s.rstates.set t.inst { rstateOf s t.inst with queue := (rstateOf s t.inst).queue ++ [k] } }
          else
            { s with tasks := setTaskPhase s.tasks k .leadGetRT,
                     rstates := s.rstates.set t.inst { rstateOf s t.inst with isRefreshing := true } }
    | .leadGetRT =>
      match truthy (getItem s.store (cfgs.getD t.inst default).refreshKey) with
      | none => { s with tasks := setTaskPhase s.tasks k .leadSettleFail }
      | some rt =>
        { s with tasks := setTaskPhase s.tasks k (.leadPost rt),
                 netCalls := s.netCalls + 1 }
    | .leadPost rt =>
      match env.net (cfgs.getD t.inst default).refreshUrl rt with
      | .fail => { s with tasks := setTaskPhase s.tasks k .leadSettleFail }
      | .ok a r =>
        match truthy a, truthy r with
        | some a2, some r2 =>
          { s with tasks := setTaskPhase s.tasks k (.leadWriteAccess a2 r2) }
        | _, _ => { s with tasks := setTaskPhase s.tasks k .leadSettleFail }
    | .leadWriteAccess a r =>
      { s with tasks := setTaskPhase s.tasks k (.leadWriteRefresh a r),
               store := setItem s.store (cfgs.getD t.inst default).accessKey a }
    | .leadWriteRefresh a r =>
      { s with tasks := setTaskPhase s.tasks k (.leadSettleOk a r),
               store := setItem s.store (cfgs.getD t.inst default).refreshKey r }
    | .leadSettleOk a _ =>
      { s with tasks := setTaskPhase (resolveAll s.tasks (rstateOf s t.inst).queue (some a)) k (.done (some a)),
               rstates := s.rstates.set t.inst ⟨false, []⟩ }
    | .leadSettleFail =>
      { s with tasks := setTaskPhase (resolveAll s.tasks (rstateOf s t.inst).queue none) k (.done none),
               rstates := s.rstates.set t.inst ⟨false, []⟩,
               cbCalls := s.cbCalls + cbIncrement (cfgs.getD t.inst default) }
    | .waiting => s
    | .done _ => s

/-- Run a schedule: advance the chosen task one segment at a time. -/
def run (env : Env) (cfgs : List InstCfg) (s : MState) : List Nat → MState
  | [] => s
  | k :: ks => run env cfgs (stepTask env cfgs s k) ks

/-- Phases in which a task is the refreshing caller of its instance,
from setting `isRefreshing = true` up to the settle segment. -/
def isLeaderPhase : Phase → Bool
  | .leadGetRT => true
  | .leadPost _ => true
  | .leadWriteAccess _ _ => true
  | .leadWriteRefresh _ _ => true
  | .leadSettleOk _ _ => true
  | .leadSettleFail => true
  | _ => false

/-- Phases in which a refresh network call of the instance is in
flight. -/
def isPostPhase : Phase → Bool
  | .leadPost _ => true
  | _ => false

/-- Number of refreshing callers of instance `i` in a task list. -/
def leaderCountL (ts : List Task) (i : Nat) : Nat :=
  ts.countP (fun t => t.inst == i && isLeaderPhase t.phase)

/-- Number of refreshing callers of instance `i`. -/
def leaderCount (s : MState) (i : Nat) : Nat := leaderCountL s.tasks i

/-- Number of refresh network calls of instance `i` in flight. -/
def netInFlight (s : MState) (i : Nat) : Nat :=
  s.tasks.countP (fun t => t.inst == i && isPostPhase t.phase)

/-- The refresh-state invariant over the refresh states and the task
list: task instances are in range; instance `i` has exactly one
refreshing caller when `isRefreshing` and none otherwise; every queued
waiter index denotes a waiting task of that instance; and every waiting
task is queued on its instance. -/
def Inv2 (rss : List RState) (ts : List Task) : Prop :=
  (∀ t ∈ ts, t.inst < rss.length) ∧
  (∀ i < rss.length,
    leaderCountL ts i = if (rss.getD i default).isRefreshing then 1 else 0) ∧
  (∀ i < rss.length, ∀ idx ∈ (rss.getD i default).queue,
    idx < ts.length ∧ (ts.getD idx default).inst = i ∧
      (ts.getD idx default).phase = .waiting) ∧
  (∀ idx < ts.length, (ts.getD idx default).phase = .waiting →
    idx ∈ (rss.getD (ts.getD idx default).inst default).queue)

/-- The refresh-state invariant of a machine state. -/
def Inv (s : MState) : Prop := Inv2 s.rstates s.tasks

/-! ### List bookkeeping lemmas for the machine -/

theorem get?_some_lt {α : Type} {l : List α} {k : Nat} {a : α}
    (h : l.get? k = some a) : k < l.length := by
  by_contra hc
  push_neg at hc
  rw [List.get?_eq_none.mpr hc] at h
  cases h

theorem setTaskPhase_length (ts : List Task) (k : Nat) (ph : Phase) :
    (setTaskPhase ts k ph).length = ts.length := by
  unfold setTaskPhase
  cases h : ts.get? k with
  | none => rfl
  | some t => simp

theorem setTaskPhase_of_none {ts : List Task} {k : Nat} (h : ts.get? k = none)
    (ph : Phase) : setTaskPhase ts k ph = ts := by
  unfold setTaskPhase
  rw [h]

theorem setTaskPhase_get?_self {ts : List Task} {k : Nat} {t : Task}
    (h : ts.get? k = some t) (ph : Phase) :
    (setTaskPhase ts k ph).get? k = some { t with phase := ph } := by
  unfold setTaskPhase
  rw [h]
  exact List.get?_set_eq_of_lt _ (get?_some_lt h)

theorem setTaskPhase_get?_ne {ts : List Task} {k j : Nat} (h : j ≠ k) (ph : Phase) :
    (setTaskPhase ts k ph).get? j = ts.get? j := by
  unfold setTaskPhase
  cases hk : ts.get? k with
  | none => rfl
  | some t => exact List.get?_set_ne _ _ (fun e => h e.symm)

theorem mem_setTaskPhase {ts : List Task} {k : Nat} {ph : Phase} {t2 : Task}
    (h : t2 ∈ setTaskPhase ts k ph) :
    t2 ∈ ts ∨ ∃ t ∈ ts, t2 = { t with phase := ph } := by
  unfold setTaskPhase at h
  cases hk : ts.get? k with
  | none =>
    rw [hk] at h
    exact Or.inl h
  | some t =>
    rw [hk] at h
    rcases List.mem_or_eq_of_mem_set h with h2 | h2
    · exact Or.inl h2
    · exact Or.inr ⟨t, List.get?_mem hk, h2⟩

theorem countP_set_balance (p : Task → Bool) (ts : List Task) (k : Nat) (t t2 : Task)
    (h : ts.get? k = some t) :
    (ts.set k t2).countP p + (if p t then 1 else 0) =
      ts.countP p + (if p t2 then 1 else 0) := by
  induction ts generalizing k with
  | nil => cases h
  | cons hd tl ih =>
    cases k with
    | zero =>
      injection h with h
      subst h
      simp only [List.set, List.countP_cons]
      omega
    | succ k2 =>
      have h2 : tl.get? k2 = some t := h
      have := ih k2 h2
      simp only [List.set, List.countP_cons]
      omega

theorem countP_setTaskPhase (p : Task → Bool) {ts : List Task} {k : Nat} {t : Task}
    (ph : Phase) (h : ts.get? k = some t) :
    (setTaskPhase ts k ph).countP p + (if p t then 1 else 0) =
      ts.countP p + (if p { t with phase := ph } then 1 else 0) := by
  unfold setTaskPhase
  rw [h]
  exact countP_set_balance p ts k t _ h

theorem resolveAll_length (ts : List Task) (q : List Nat) (res : Option String) :
    (resolveAll ts q res).length = ts.length := by
  induction q generalizing ts with
  | nil => rfl
  | cons i q2 ih =>
    show (resolveAll (setTaskPhase ts i (.done res)) q2 res).length = ts.length
    rw [ih, setTaskPhase_length]

theorem resolveAll_get? (ts : List Task) (q : List Nat) (res : Option String) (j : Nat) :
    (resolveAll ts q res).get? j =
      if j ∈ q then (ts.get? j).map (fun t => { t with phase := .done res })
      else ts.get? j := by
  induction q generalizing ts with
  | nil => simp [resolveAll]
  | cons i q2 ih =>
    show (resolveAll (setTaskPhase ts i (.done res)) q2 res).get? j = _
    rw [ih]
    by_cases hq : j ∈ q2
    · rw [if_pos hq, if_pos (by simp [hq])]
      by_cases hj : j = i
      · subst hj
        cases ht : ts.get? j with
        | none => rw [setTaskPhase_of_none ht, ht]
        | some t =>
          rw [setTaskPhase_get?_self ht]
          rfl
      · rw [setTaskPhase_get?_ne hj]
    · rw [if_neg hq]
      by_cases hj : j = i
      · subst hj
        rw [if_pos (by simp)]
        cases ht : ts.get? j with
        | none =>
          rw [setTaskPhase_of_none ht, ht]
          rfl
        | some t =>
          rw [setTaskPhase_get?_self ht]
          rfl
      · rw [setTaskPhase_get?_ne hj, if_neg (by simp [hj, hq])]

theorem mem_resolveAll {ts : List Task} {q : List Nat} {res : Option String} {t2 : Task}
    (h : t2 ∈ resolveAll ts q res) :
    t2 ∈ ts ∨ ∃ t ∈ ts, t2 = { t with phase := .done res } := by
  induction q generalizing ts with
  | nil => exact Or.inl h
  | cons i q2 ih =>
    have h2 : t2 ∈ resolveAll (setTaskPhase ts i (.done res)) q2 res := h
    rcases ih h2 with h3 | ⟨t, ht, he⟩
    · rcases mem_setTaskPhase h3 with h4 | ⟨t, ht, he⟩
      · exact Or.inl h4
      · exact Or.inr ⟨t, ht, he⟩
    · rcases mem_setTaskPhase ht with h4 | ⟨t0, ht0, he0⟩
      · exact Or.inr ⟨t, h4, he⟩
      · subst he0
        exact Or.inr ⟨t0, ht0, he⟩

theorem countP_resolveAll (p : Task → Bool) (ts : List Task) (q : List Nat)
    (res : Option String)
    (h : ∀ j ∈ q, ∀ t, ts.get? j = some t → p { t with phase := .done res } = p t) :
    (resolveAll ts q res).countP p = ts.countP p := by
  induction q generalizing ts with
  | nil => rfl
  | cons i q2 ih =>
    show (resolveAll (setTaskPhase ts i (.done res)) q2 res).countP p = ts.countP p
    have hmid : (setTaskPhase ts i (.done res)).countP p = ts.countP p := by
      cases ht : ts.get? i with
      | none => rw [setTaskPhase_of_none ht]
      | some t =>
        have hb := countP_setTaskPhase p (.done res) ht
        have hp := h i (by simp) t ht
        rw [hp] at hb
        omega
    rw [ih, hmid]
    intro j hj t htj
    by_cases hji : j = i
    · subst hji
      cases ht : ts.get? j with
      | none =>
        rw [setTaskPhase_of_none ht] at htj
        rw [ht] at htj
        cases htj
      | some t0 =>
        rw [setTaskPhase_get?_self ht] at htj
        injection htj with he
        subst he
        rfl
    · rw [setTaskPhase_get?_ne hji] at htj
      exact h j (by simp [hj]) t htj

theorem getD_eq_get? {α : Type} [Inhabited α] (l : List α) (n : Nat) :
    l.getD n default = (l.get? n).getD default := rfl

theorem set_getD_self {α : Type} [Inhabited α] {l : List α} {i : Nat} {r : α}
    (h : i < l.length) : (l.set i r).getD i default = r := by
  rw [getD_eq_get?, List.get?_set_eq_of_lt r h]
  rfl

theorem set_getD_ne {α : Type} [Inhabited α] {l : List α} {i j : Nat} {r : α}
    (h : j ≠ i) : (l.set i r).getD j default = l.getD j default := by
  rw [getD_eq_get?, getD_eq_get?, List.get?_set_ne r l (fun e => h e.symm)]

theorem getD_of_get? {ts : List Task} {k : Nat} {t : Task} (h : ts.get? k = some t) :
    ts.getD k default = t := by
  rw [getD_eq_get?, h]
  rfl

theorem setTaskPhase_getD_ne {ts : List Task} {k j : Nat} (h : j ≠ k) (ph : Phase) :
    (setTaskPhase ts k ph).getD j default = ts.getD j default := by
  rw [getD_eq_get?, getD_eq_get?, setTaskPhase_get?_ne h]

theorem setTaskPhase_getD_self {ts : List Task} {k : Nat} {t : Task}
    (h : ts.get? k = some t) (ph : Phase) :
    (setTaskPhase ts k ph).getD k default = { t with phase := ph } := by
  rw [getD_eq_get?, setTaskPhase_get?_self h]
  rfl

theorem resolveAll_getD_mem {ts : List Task} {q : List Nat} {res : Option String}
    {idx : Nat} (h : idx ∈ q) {t : Task} (ht : ts.get? idx = some t) :
    (resolveAll ts q res).getD idx default = { t with phase := .done res } := by
  rw [getD_eq_get?, resolveAll_get?, if_pos h, ht]
  rfl

theorem resolveAll_getD_not_mem {ts : List Task} {q : List Nat} {res : Option String}
    {idx : Nat} (h : idx ∉ q) :
    (resolveAll ts q res).getD idx default = ts.getD idx default := by
  rw [getD_eq_get?, getD_eq_get?, resolveAll_get?, if_neg h]

/-- Changing a task's phase between two phases of the same leaderness,
neither of which is `waiting`, preserves the refresh-state invariant
with the refresh states untouched. -/
theorem inv2_phase_change {rss : List RState} {ts : List Task} {k : Nat} {t : Task}
    (ph : Phase) (hk : ts.get? k = some t)
    (hlead : isLeaderPhase ph = isLeaderPhase t.phase)
    (hw1 : ph ≠ .waiting) (hw2 : t.phase ≠ .waiting)
    (hinv : Inv2 rss ts) : Inv2 rss (setTaskPhase ts k ph) := by
  obtain ⟨hwf, hld, hqw, hwq⟩ := hinv
  refine ⟨?_, ?_, ?_, ?_⟩
  · intro t2 ht2
    rcases mem_setTaskPhase ht2 with h2 | ⟨t0, ht0, he⟩
    · exact hwf t2 h2
    · subst he
      exact hwf t0 ht0
  · intro i hi
    have hb := countP_setTaskPhase (fun t => t.inst == i && isLeaderPhase t.phase) ph hk
    have hpe : ((fun t => t.inst == i && isLeaderPhase t.phase) { t with phase := ph }) =
        ((fun t => t.inst == i && isLeaderPhase t.phase) t) := by
      show (t.inst == i && isLeaderPhase ph) = (t.inst == i && isLeaderPhase t.phase)
      rw [hlead]
    rw [hpe] at hb
    have := hld i hi
    unfold leaderCountL at *
    omega
  · intro i hi idx hidx
    obtain ⟨hlt, hinst, hph⟩ := hqw i hi idx hidx
    have hne : idx ≠ k := by
      intro he
      subst he
      rw [getD_of_get? hk] at hph
      exact hw2 hph
    refine ⟨by rw [setTaskPhase_length]; exact hlt, ?_, ?_⟩
    · rw [setTaskPhase_getD_ne hne]
      exact hinst
    · rw [setTaskPhase_getD_ne hne]
      exact hph
  · intro idx hlen hph
    rw [setTaskPhase_length] at hlen
    by_cases hne : idx = k
    · subst hne
      rw [setTaskPhase_getD_self hk] at hph
      exact absurd hph hw1
    · rw [setTaskPhase_getD_ne hne] at hph ⊢
      exact hwq idx hlen hph

/-- A task that observes a refresh in flight enqueues itself and moves
to `waiting`: the invariant is preserved. -/
theorem inv2_enqueue {rss : List RState} {ts : List Task} {k : Nat} {t : Task}
    (hk : ts.get? k = some t)
    (hph : isLeaderPhase t.phase = false) (hw2 : t.phase ≠ .waiting)
    (hinv : Inv2 rss ts) :
    Inv2 (rss.set t.inst
        { rss.getD t.inst default with queue := (rss.getD t.inst default).queue ++ [k] })
      (setTaskPhase ts k .waiting) := by
  obtain ⟨hwf, hld, hqw, hwq⟩ := hinv
  have hi0 : t.inst < rss.length := hwf t (List.get?_mem hk)
  have hklen : k < ts.length := get?_some_lt hk
  refine ⟨?_, ?_, ?_, ?_⟩
  · intro t2 ht2
    rw [List.length_set]
    rcases mem_setTaskPhase ht2 with h2 | ⟨t0, ht0, he⟩
    · exact hwf t2 h2
    · subst he
      exact hwf t0 ht0
  · intro i hi
    rw [List.length_set] at hi
    have hb := countP_setTaskPhase (fun t => t.inst == i && isLeaderPhase t.phase) .waiting hk
    have hpe : ((fun t => t.inst == i && isLeaderPhase t.phase) { t with phase := .waiting }) =
        ((fun t => t.inst == i && isLeaderPhase t.phase) t) := by
      show (t.inst == i && isLeaderPhase Phase.waiting) = (t.inst == i && isLeaderPhase t.phase)
      rw [hph]
      rfl
    rw [hpe] at hb
    have hcount : leaderCountL (setTaskPhase ts k .waiting) i = leaderCountL ts i := by
      unfold leaderCountL
      omega
    rw [hcount]
    by_cases hii : i = t.inst
    · subst hii
      rw [set_getD_self hi0]
      exact hld _ hi
    · rw [set_getD_ne hii]
      exact hld i hi
  · intro i hi idx hidx
    rw [List.length_set] at hi
    by_cases hii : i = t.inst
    · subst hii
      rw [set_getD_self hi0] at hidx
      rcases List.mem_append.mp hidx with hq | hk2

      · obtain ⟨hlt, hinst, hphx⟩ := hqw _ hi idx hq
        have hne : idx ≠ k := by
          intro he
          subst he
          rw [getD_of_get? hk] at hphx
          exact hw2 hphx
        exact ⟨by rw [setTaskPhase_length]; exact hlt,
          by rw [setTaskPhase_getD_ne hne]; exact hinst,
          by rw [setTaskPhase_getD_ne hne]; exact hphx⟩
      · have hik : idx = k := by simpa using hk2
        subst hik
        refine ⟨by rw [setTaskPhase_length]; exact hklen, ?_, ?_⟩
        · rw [setTaskPhase_getD_self hk]
        · rw [setTaskPhase_getD_self hk]
    · rw [set_getD_ne hii] at hidx
      obtain ⟨hlt, hinst, hphx⟩ := hqw i hi idx hidx
      have hne : idx ≠ k := by
        intro he
        subst he
        rw [getD_of_get? hk] at hphx
        exact hw2 hphx
      exact ⟨by rw [setTaskPhase_length]; exact hlt,
        by rw [setTaskPhase_getD_ne hne]; exact hinst,
        by rw [setTaskPhase_getD_ne hne]; exact hphx⟩
  · intro idx hlen hphx
    rw [setTaskPhase_length] at hlen
    by_cases hne : idx = k
    · subst hne
      rw [setTaskPhase_getD_self hk]
      have hins : ({ t with phase := Phase.waiting }).inst = t.inst := rfl
      rw [hins, set_getD_self hi0]
      exact List.mem_append.mpr (Or.inr (by simp))
    · rw [setTaskPhase_getD_ne hne] at hphx ⊢
      have hmem := hwq idx hlen hphx
      by_cases hii : (ts.getD idx default).inst = t.inst
      · rw [hii] at hmem ⊢
        rw [set_getD_self hi0]
        exact List.mem_append.mpr (Or.inl hmem)
      · rw [set_getD_ne hii]
        exact hmem

theorem get?_eq_some_getD {ts : List Task} {idx : Nat} (h : idx < ts.length) :
    ts.get? idx = some (ts.getD idx default) := by
  cases hg : ts.get? idx with
  | none =>
    rw [List.get?_eq_none] at hg
    omega
  | some t0 =>
    rw [getD_eq_get?, hg]
    rfl

/-- A task that finds `isRefreshing = false` sets it and becomes the
refreshing caller: the invariant is preserved. -/
theorem inv2_become_leader {rss : List RState} {ts : List Task} {k : Nat} {t : Task}
    (hk : ts.get? k = some t)
    (hph : isLeaderPhase t.phase = false) (hw2 : t.phase ≠ .waiting)
    (hrs : (rss.getD t.inst default).isRefreshing = false)
    (hinv : Inv2 rss ts) :
    Inv2 (rss.set t.inst { rss.getD t.inst default with isRefreshing := true })
      (setTaskPhase ts k .leadGetRT) := by
  obtain ⟨hwf, hld, hqw, hwq⟩ := hinv
  have hi0 : t.inst < rss.length := hwf t (List.get?_mem hk)
  refine ⟨?_, ?_, ?_, ?_⟩
  · intro t2 ht2
    rw [List.length_set]
    rcases mem_setTaskPhase ht2 with h2 | ⟨t0, ht0, he⟩
    · exact hwf t2 h2
    · subst he
      exact hwf t0 ht0
  · intro i hi
    rw [List.length_set] at hi
    have hb := countP_setTaskPhase (fun t => t.inst == i && isLeaderPhase t.phase) .leadGetRT hk
    by_cases hii : i = t.inst
    · subst hii
      have hpt : ((fun t2 => t2.inst == t.inst && isLeaderPhase t2.phase) t) = false := by
        show (t.inst == t.inst && isLeaderPhase t.phase) = false
        rw [hph]
        simp
      have hpt2 : ((fun t2 => t2.inst == t.inst && isLeaderPhase t2.phase)
          { t with phase := Phase.leadGetRT }) = true := by
        show (t.inst == t.inst && isLeaderPhase Phase.leadGetRT) = true
        simp [isLeaderPhase]
      rw [hpt, hpt2] at hb
      have h0 := hld t.inst hi
      rw [hrs] at h0
      rw [set_getD_self hi0]
      have href : ({ rss.getD t.inst default with isRefreshing := true }).isRefreshing = true := rfl
      rw [href]
      unfold leaderCountL at *
      simp only [if_true, if_neg Bool.false_ne_true] at *
      omega
    · have hpt : ((fun t2 => t2.inst == i && isLeaderPhase t2.phase) t) =
          ((fun t2 => t2.inst == i && isLeaderPhase t2.phase)
            { t with phase := Phase.leadGetRT }) := by
        show (t.inst == i && isLeaderPhase t.phase) = (t.inst == i && isLeaderPhase Phase.leadGetRT)
        have : (t.inst == i) = false := by
          simp
          intro he
          exact absurd he.symm hii
        rw [this]
        simp
      rw [← hpt] at hb
      rw [set_getD_ne hii]
      have h0 := hld i hi
      unfold leaderCountL at *
      omega
  · intro i hi idx hidx
    rw [List.length_set] at hi
    have hidx2 : idx ∈ (rss.getD i default).queue := by
      by_cases hii : i = t.inst
      · subst hii
        rw [set_getD_self hi0] at hidx
        exact hidx
      · rw [set_getD_ne hii] at hidx
        exact hidx
    obtain ⟨hlt, hinst, hphx⟩ := hqw i hi idx hidx2
    have hne : idx ≠ k := by
      intro he
      subst he
      rw [getD_of_get? hk] at hphx
      exact hw2 hphx
    exact ⟨by rw [setTaskPhase_length]; exact hlt,
      by rw [setTaskPhase_getD_ne hne]; exact hinst,
      by rw [setTaskPhase_getD_ne hne]; exact hphx⟩
  · intro idx hlen hphx
    rw [setTaskPhase_length] at hlen
    by_cases hne : idx = k
    · subst hne
      rw [setTaskPhase_getD_self hk] at hphx
      cases hphx
    · rw [setTaskPhase_getD_ne hne] at hphx ⊢
      have hmem := hwq idx hlen hphx
      by_cases hii : (ts.getD idx default).inst = t.inst
      · rw [hii] at hmem ⊢
        rw [set_getD_self hi0]
        exact hmem
      · rw [set_getD_ne hii]
        exact hmem

/-- The refreshing caller settles (success or failure): every queued
waiter of its instance is moved to `done` together, the queue is
cleared, `isRefreshing` is reset — the invariant is preserved. -/
theorem inv2_settle {rss : List RState} {ts : List Task} {k : Nat} {t : Task}
    (hk : ts.get? k = some t)
    (hph : isLeaderPhase t.phase = true) (res : Option String)
    (hinv : Inv2 rss ts) :
    Inv2 (rss.set t.inst ⟨false, []⟩)
      (setTaskPhase (resolveAll ts (rss.getD t.inst default).queue res) k (.done res)) := by
  obtain ⟨hwf, hld, hqw, hwq⟩ := hinv
  have hi0 : t.inst < rss.length := hwf t (List.get?_mem hk)
  have hw2 : t.phase ≠ .waiting := by
    intro he
    rw [he] at hph
    cases hph
  have hknq : k ∉ (rss.getD t.inst default).queue := by
    intro hin
    obtain ⟨-, -, hphx⟩ := hqw t.inst hi0 k hin
    rw [getD_of_get? hk] at hphx
    exact hw2 hphx
  have hkr : (resolveAll ts (rss.getD t.inst default).queue res).get? k = some t := by
    rw [resolveAll_get?, if_neg hknq]
    exact hk
  have hcres : ∀ i, (resolveAll ts (rss.getD t.inst default).queue res).countP
      (fun t2 => t2.inst == i && isLeaderPhase t2.phase) =
      ts.countP (fun t2 => t2.inst == i && isLeaderPhase t2.phase) := by
    intro i
    apply countP_resolveAll
    intro j hj t0 ht0
    obtain ⟨-, -, hphx⟩ := hqw t.inst hi0 j hj
    rw [getD_of_get? ht0] at hphx
    show (t0.inst == i && isLeaderPhase (Phase.done res)) = (t0.inst == i && isLeaderPhase t0.phase)
    rw [hphx]
    rfl
  refine ⟨?_, ?_, ?_, ?_⟩
  · intro t2 ht2
    rw [List.length_set]
    rcases mem_setTaskPhase ht2 with h2 | ⟨t0, ht0, he⟩
    · rcases mem_resolveAll h2 with h3 | ⟨t1, ht1, he1⟩
      · exact hwf t2 h3
      · subst he1
        exact hwf t1 ht1
    · subst he
      rcases mem_resolveAll ht0 with h3 | ⟨t1, ht1, he1⟩
      · exact hwf t0 h3
      · subst he1
        exact hwf t1 ht1
  · intro i hi
    rw [List.length_set] at hi
    have hb := countP_setTaskPhase (fun t2 => t2.inst == i && isLeaderPhase t2.phase)
      (.done res) hkr
    rw [hcres i] at hb
    by_cases hii : i = t.inst
    · subst hii
      have hpt : ((fun t2 => t2.inst == t.inst && isLeaderPhase t2.phase) t) = true := by
        show (t.inst == t.inst && isLeaderPhase t.phase) = true
        rw [hph]
        simp
      have hpt2 : ((fun t2 => t2.inst == t.inst && isLeaderPhase t2.phase)
          { t with phase := Phase.done res }) = false := by
        show (t.inst == t.inst && isLeaderPhase (Phase.done res)) = false
        simp [isLeaderPhase]
      rw [hpt, hpt2] at hb
      have h0 := hld t.inst hi
      have hpos : 0 < ts.countP (fun t2 => t2.inst == t.inst && isLeaderPhase t2.phase) := by
        rw [List.countP_pos]
        exact ⟨t, List.get?_mem hk, hpt⟩
      rw [set_getD_self hi0]
      show leaderCountL _ t.inst = if (⟨false, []⟩ : RState).isRefreshing then 1 else 0
      have hfal : (⟨false, []⟩ : RState).isRefreshing = false := rfl
      rw [hfal]
      unfold leaderCountL at *
      by_cases hr0 : (rss.getD t.inst default).isRefreshing
      · rw [hr0, if_pos rfl] at h0
        simp only [if_true, if_neg Bool.false_ne_true] at *
        omega
      · rw [Bool.not_eq_true] at hr0
        rw [hr0] at h0
        simp only [if_neg Bool.false_ne_true] at h0
        omega
    · have hpt : ((fun t2 => t2.inst == i && isLeaderPhase t2.phase) t) =
          ((fun t2 => t2.inst == i && isLeaderPhase t2.phase)
            { t with phase := Phase.done res }) := by
        show (t.inst == i && isLeaderPhase t.phase) = (t.inst == i && isLeaderPhase (Phase.done res))
        have hbe : (t.inst == i) = false := by
          simp
          intro he
          exact absurd he.symm hii
        rw [hbe]
        simp
      rw [← hpt] at hb
      rw [set_getD_ne hii]
      have h0 := hld i hi
      unfold leaderCountL at *
      omega
  · intro i hi idx hidx
    rw [List.length_set] at hi
    by_cases hii : i = t.inst
    · subst hii
      rw [set_getD_self hi0] at hidx
      cases hidx
    · rw [set_getD_ne hii] at hidx
      obtain ⟨hlt, hinst, hphx⟩ := hqw i hi idx hidx
      have hne : idx ≠ k := by
        intro he
        subst he
        rw [getD_of_get? hk] at hphx
        exact hw2 hphx
      have hnq : idx ∉ (rss.getD t.inst default).queue := by
        intro hin
        obtain ⟨-, hinst2, -⟩ := hqw t.inst hi0 idx hin
        rw [hinst] at hinst2
        exact hii hinst2
      refine ⟨?_, ?_, ?_⟩
      · rw [setTaskPhase_length, resolveAll_length]
        exact hlt
      · rw [setTaskPhase_getD_ne hne, resolveAll_getD_not_mem hnq]
        exact hinst
      · rw [setTaskPhase_getD_ne hne, resolveAll_getD_not_mem hnq]
        exact hphx
  · intro idx hlen hphx
    rw [setTaskPhase_length, resolveAll_length] at hlen
    by_cases hne : idx = k
    · subst hne
      rw [setTaskPhase_getD_self hkr] at hphx
      cases hphx
    · rw [setTaskPhase_getD_ne hne] at hphx ⊢
      have hnq : idx ∉ (rss.getD t.inst default).queue := by
        intro hin
        rw [resolveAll_getD_mem hin (get?_eq_some_getD hlen)] at hphx
        cases hphx
      rw [resolveAll_getD_not_mem hnq] at hphx ⊢
      have hmem := hwq idx hlen hphx
      by_cases hii : (ts.getD idx default).inst = t.inst
      · rw [hii] at hmem
        exact absurd hmem hnq
      · rw [set_getD_ne hii]
        exact hmem

/-! ### Step equations: one per synchronous segment -/

theorem stepTask_no_task {env : Env} {cfgs : List InstCfg} {s : MState} {k : Nat}
    (hk : s.tasks.get? k = none) : stepTask env cfgs s k = s := by
  unfold stepTask
  simp only [hk]

theorem stepTask_start {env : Env} {cfgs : List InstCfg} {s : MState} {k : Nat} {t : Task}
    (hk : s.tasks.get? k = some t) (hph : t.phase = .start) :
    stepTask env cfgs s k =
      { s with tasks := setTaskPhase s.tasks k (.decide (getItem s.store (cfgs.getD t.inst default).accessKey)) } := by
  unfold stepTask
  simp only [hk, hph]

theorem stepTask_decide_falsy {env : Env} {cfgs : List InstCfg} {s : MState} {k : Nat}
    {t : Task} {tok : Option String}
    (hk : s.tasks.get? k = some t) (hph : t.phase = .decide tok)
    (htr : truthy tok = none) :
    stepTask env cfgs s k = { s with tasks := setTaskPhase s.tasks k (.done none) } := by
  unfold stepTask
  simp only [hk, hph, htr]

theorem stepTask_decide_nodecode {env : Env} {cfgs : List InstCfg} {s : MState} {k : Nat}
    {t : Task} {tok : Option String} {tok2 : String}
    (hk : s.tasks.get? k = some t) (hph : t.phase = .decide tok)
    (htr : truthy tok = some tok2) (hdec : decodeJWT env tok2 = none) :
    stepTask env cfgs s k = { s with tasks := setTaskPhase s.tasks k (.done none) } := by
  unfold stepTask
  simp only [hk, hph, htr, hdec]

theorem stepTask_decide_fresh {env : Env} {cfgs : List InstCfg} {s : MState} {k : Nat}
    {t : Task} {tok : Option String} {tok2 : String} {exp : Int}
    (hk : s.tasks.get? k = some t) (hph : t.phase = .decide tok)
    (htr : truthy tok = some tok2) (hdec : decodeJWT env tok2 = some exp)
    (hif : exp - env.now > t.buffer) :
    stepTask env cfgs s k = { s with tasks := setTaskPhase s.tasks k (.done (some tok2)) } := by
  unfold stepTask
  simp only [hk, hph, htr, hdec, hif, if_true]

theorem stepTask_decide_enqueue {env : Env} {cfgs : List InstCfg} {s : MState} {k : Nat}
    {t : Task} {tok : Option String} {tok2 : String} {exp : Int}
    (hk : s.tasks.get? k = some t) (hph : t.phase = .decide tok)
    (htr : truthy tok = some tok2) (hdec : decodeJWT env tok2 = some exp)
    (hif : ¬exp - env.now > t.buffer)
    (hrs : (rstateOf s t.inst).isRefreshing = true) :
    stepTask env cfgs s k =
      { s with tasks := setTaskPhase s.tasks k .waiting,
               rstates := s.rstates.set t.inst { rstateOf s t.inst with queue := (rstateOf s t.inst).queue ++ [k] } } := by
  unfold stepTask
  simp only [hk, hph, htr, hdec, hif, hrs, if_false, if_true]

theorem stepTask_decide_lead {env : Env} {cfgs : List InstCfg} {s : MState} {k : Nat}
    {t : Task} {tok : Option String} {tok2 : String} {exp : Int}
    (hk : s.tasks.get? k = some t) (hph : t.phase = .decide tok)
    (htr : truthy tok = some tok2) (hdec : decodeJWT env tok2 = some exp)
    (hif : ¬exp - env.now > t.buffer)
    (hrs : (rstateOf s t.inst).isRefreshing = false) :
    stepTask env cfgs s k =
      { s with tasks := setTaskPhase s.tasks k .leadGetRT,
               rstates := s.rstates.set t.inst { rstateOf s t.inst with isRefreshing := true } } := by
  unfold stepTask
  simp only [hk, hph, htr, hdec, hif, hrs, if_false, if_true]
  simp

theorem stepTask_getRT_none {env : Env} {cfgs : List InstCfg} {s : MState} {k : Nat}
    {t : Task} (hk : s.tasks.get? k = some t) (hph : t.phase = .leadGetRT)
    (hg : truthy (getItem s.store (cfgs.getD t.inst default).refreshKey) = none) :
    stepTask env cfgs s k = { s with tasks := setTaskPhase s.tasks k .leadSettleFail } := by
  unfold stepTask
  simp only [hk, hph, hg]

theorem stepTask_getRT_some {env : Env} {cfgs : List InstCfg} {s : MState} {k : Nat}
    {t : Task} {rt : String} (hk : s.tasks.get? k = some t) (hph : t.phase = .leadGetRT)
    (hg : truthy (getItem s.store (cfgs.getD t.inst default).refreshKey) = some rt) :
    stepTask env cfgs s k =
      { s with tasks := setTaskPhase s.tasks k (.leadPost rt),
               netCalls := s.netCalls + 1 } := by
  unfold stepTask
  simp only [hk, hph, hg]

theorem stepTask_post_fail {env : Env} {cfgs : List InstCfg} {s : MState} {k : Nat}
    {t : Task} {rt : String} (hk : s.tasks.get? k = some t) (hph : t.phase = .leadPost rt)
    (hn : env.net (cfgs.getD t.inst default).refreshUrl rt = .fail) :
    stepTask env cfgs s k = { s with tasks := setTaskPhase s.tasks k .leadSettleFail } := by
  unfold stepTask
  simp only [hk, hph, hn]

theorem stepTask_post_ok {env : Env} {cfgs : List InstCfg} {s : MState} {k : Nat}
    {t : Task} {rt : String} {a r : Option String} {a2 r2 : String}
    (hk : s.tasks.get? k = some t) (hph : t.phase = .leadPost rt)
    (hn : env.net (cfgs.getD t.inst default).refreshUrl rt = .ok a r)
    (hta : truthy a = some a2) (htb : truthy r = some r2) :
    stepTask env cfgs s k =
      { s with tasks := setTaskPhase s.tasks k (.leadWriteAccess a2 r2) } := by
  unfold stepTask
  simp only [hk, hph, hn, hta, htb]

theorem stepTask_post_invalid {env : Env} {cfgs : List InstCfg} {s : MState} {k : Nat}
    {t : Task} {rt : String} {a r : Option String}
    (hk : s.tasks.get? k = some t) (hph : t.phase = .leadPost rt)
    (hn : env.net (cfgs.getD t.inst default).refreshUrl rt = .ok a r)
    (hbad : truthy a = none ∨ truthy r = none) :
    stepTask env cfgs s k = { s with tasks := setTaskPhase s.tasks k .leadSettleFail } := by
  unfold stepTask
  rcases hbad with hb | hb
  · simp only [hk, hph, hn, hb]
  · cases hta : truthy a with
    | none => simp only [hk, hph, hn, hta]
    | some a2 => simp only [hk, hph, hn, hta, hb]

theorem stepTask_writeA {env : Env} {cfgs : List InstCfg} {s : MState} {k : Nat}
    {t : Task} {a r : String} (hk : s.tasks.get? k = some t)
    (hph : t.phase = .leadWriteAccess a r) :
    stepTask env cfgs s k =
      { s with tasks := setTaskPhase s.tasks k (.leadWriteRefresh a r),
               store := setItem s.store (cfgs.getD t.inst default).accessKey a } := by
  unfold stepTask
  simp only [hk, hph]

theorem stepTask_writeR {env : Env} {cfgs : List InstCfg} {s : MState} {k : Nat}
    {t : Task} {a r : String} (hk : s.tasks.get? k = some t)
    (hph : t.phase = .leadWriteRefresh a r) :
    stepTask env cfgs s k =
      { s with tasks := setTaskPhase s.tasks k (.leadSettleOk a r),
               store := setItem s.store (cfgs.getD t.inst default).refreshKey r } := by
  unfold stepTask
  simp only [hk, hph]

theorem stepTask_settleOk {env : Env} {cfgs : List InstCfg} {s : MState} {k : Nat}
    {t : Task} {a r : String} (hk : s.tasks.get? k = some t)
    (hph : t.phase = .leadSettleOk a r) :
    stepTask env cfgs s k =
      { s with tasks := setTaskPhase (resolveAll s.tasks (rstateOf s t.inst).queue (some a)) k (.done (some a)),
               rstates := s.rstates.set t.inst ⟨false, []⟩ } := by
  unfold stepTask
  simp only [hk, hph]

theorem stepTask_settleFail {env : Env} {cfgs : List InstCfg} {s : MState} {k : Nat}
    {t : Task} (hk : s.tasks.get? k = some t) (hph : t.phase = .leadSettleFail) :
    stepTask env cfgs s k =
      { s with tasks := setTaskPhase (resolveAll s.tasks (rstateOf s t.inst).queue none) k (.done none),
               rstates := s.rstates.set t.inst ⟨false, []⟩,
               cbCalls := s.cbCalls + cbIncrement (cfgs.getD t.inst default) } := by
  unfold stepTask
  simp only [hk, hph]

theorem stepTask_waiting {env : Env} {cfgs : List InstCfg} {s : MState} {k : Nat}
    {t : Task} (hk : s.tasks.get? k = some t) (hph : t.phase = .waiting) :
    stepTask env cfgs s k = s := by
  unfold stepTask
  simp only [hk, hph]

theorem stepTask_done {env : Env} {cfgs : List InstCfg} {s : MState} {k : Nat}
    {t : Task} {res : Option String} (hk : s.tasks.get? k = some t)
    (hph : t.phase = .done res) : stepTask env cfgs s k = s := by
  unfold stepTask
  simp only [hk, hph]

/-- Every machine step preserves the refresh-state invariant. -/
theorem inv_stepTask (env : Env) (cfgs : List InstCfg) (s : MState) (k : Nat)
    (h : Inv s) : Inv (stepTask env cfgs s k) := by
  cases hk : s.tasks.get? k with
  | none => rw [stepTask_no_task hk]; exact h
  | some t =>
    cases hph : t.phase with
    | start =>
      rw [stepTask_start hk hph]
      refine inv2_phase_change _ hk ?_ ?_ ?_ h <;> simp [hph, isLeaderPhase]
    | decide tok =>
      cases htr : truthy tok with
      | none =>
        rw [stepTask_decide_falsy hk hph htr]
        refine inv2_phase_change _ hk ?_ ?_ ?_ h <;> simp [hph, isLeaderPhase]
      | some tok2 =>
        cases hdec : decodeJWT env tok2 with
        | none =>
          rw [stepTask_decide_nodecode hk hph htr hdec]
          refine inv2_phase_change _ hk ?_ ?_ ?_ h <;> simp [hph, isLeaderPhase]
        | some exp =>
          by_cases hif : exp - env.now > t.buffer
          · rw [stepTask_decide_fresh hk hph htr hdec hif]
            refine inv2_phase_change _ hk ?_ ?_ ?_ h <;> simp [hph, isLeaderPhase]
          · by_cases hrs : (rstateOf s t.inst).isRefreshing = true
            · rw [stepTask_decide_enqueue hk hph htr hdec hif hrs]
              refine inv2_enqueue hk ?_ ?_ h <;> simp [hph, isLeaderPhase]
            · have hrs2 : (rstateOf s t.inst).isRefreshing = false := by
                revert hrs
                cases (rstateOf s t.inst).isRefreshing <;> simp
              rw [stepTask_decide_lead hk hph htr hdec hif hrs2]
              refine inv2_become_leader hk ?_ ?_ hrs2 h <;> simp [hph, isLeaderPhase]
    | leadGetRT =>
      cases hg : truthy (getItem s.store (cfgs.getD t.inst default).refreshKey) with
      | none =>
        rw [stepTask_getRT_none hk hph hg]
        refine inv2_phase_change _ hk ?_ ?_ ?_ h <;> simp [hph, isLeaderPhase]
      | some rt =>
        rw [stepTask_getRT_some hk hph hg]
        refine inv2_phase_change _ hk ?_ ?_ ?_ h <;> simp [hph, isLeaderPhase]
    | leadPost rt =>
      cases hn : env.net (cfgs.getD t.inst default).refreshUrl rt with
      | fail =>
        rw [stepTask_post_fail hk hph hn]
        refine inv2_phase_change _ hk ?_ ?_ ?_ h <;> simp [hph, isLeaderPhase]
      | ok a r =>
        cases hta : truthy a with
        | none =>
          rw [stepTask_post_invalid hk hph hn (Or.inl hta)]
          refine inv2_phase_change _ hk ?_ ?_ ?_ h <;> simp [hph, isLeaderPhase]
        | some a2 =>
          cases htb : truthy r with
          | none =>
            rw [stepTask_post_invalid hk hph hn (Or.inr htb)]
            refine inv2_phase_change _ hk ?_ ?_ ?_ h <;> simp [hph, isLeaderPhase]
          | some r2 =>
            rw [stepTask_post_ok hk hph hn hta htb]
            refine inv2_phase_change _ hk ?_ ?_ ?_ h <;> simp [hph, isLeaderPhase]
    | leadWriteAccess a r =>
      rw [stepTask_writeA hk hph]
      refine inv2_phase_change _ hk ?_ ?_ ?_ h <;> simp [hph, isLeaderPhase]
    | leadWriteRefresh a r =>
      rw [stepTask_writeR hk hph]
      refine inv2_phase_change _ hk ?_ ?_ ?_ h <;> simp [hph, isLeaderPhase]
    | leadSettleOk a r =>
      rw [stepTask_settleOk hk hph]
      exact inv2_settle hk (by simp [hph, isLeaderPhase]) (some a) h
    | leadSettleFail =>
      rw [stepTask_settleFail hk hph]
      exact inv2_settle hk (by simp [hph, isLeaderPhase]) none h
    | waiting => rw [stepTask_waiting hk hph]; exact h
    | done res => rw [stepTask_done hk hph]; exact h

/-- Running any schedule preserves the refresh-state invariant. -/
theorem inv_run (env : Env) (cfgs : List InstCfg) (s : MState) (sched : List Nat)
    (h : Inv s) : Inv (run env cfgs s sched) := by
  induction sched generalizing s with
  | nil => exact h
  | cons k ks ih => exact ih _ (inv_stepTask env cfgs s k h)

/-! ### C1: single-flight refresh with broadcast -/

theorem isPost_isLeader {ph : Phase} (h : isPostPhase ph = true) :
    isLeaderPhase ph = true := by
  cases ph <;> simp [isPostPhase, isLeaderPhase] at *

/-- Under the invariant, at most one refresh network call of each
instance is in flight. -/
theorem netInFlight_le_one {s : MState} (h : Inv s) (i : Nat) : netInFlight s i ≤ 1 := by
  obtain ⟨hwf, hld, -, -⟩ := h
  have h1 : netInFlight s i ≤ leaderCountL s.tasks i := by
    apply List.countP_mono_left
    intro t ht hp
    simp only [Bool.and_eq_true] at hp ⊢
    exact ⟨hp.1, isPost_isLeader hp.2⟩
  by_cases hi : i < s.rstates.length
  · have h2 := hld i hi
    by_cases hb : (s.rstates.getD i default).isRefreshing = true
    · rw [hb, if_pos rfl] at h2
      omega
    · have hb2 : (s.rstates.getD i default).isRefreshing = false := by
        revert hb
        cases (s.rstates.getD i default).isRefreshing <;> simp
      rw [hb2] at h2
      simp only [if_neg Bool.false_ne_true] at h2
      omega
  · have h0 : leaderCountL s.tasks i = 0 := by
      apply List.countP_eq_zero.mpr
      intro t ht
      have hlt := hwf t ht
      simp only [Bool.and_eq_true, beq_iff_eq, not_and]
      intro he
      omega
    omega

/-- Environment of the canonical two-caller batch: a stale stored token
(`exp = 10`, now `100`), a refresh endpoint answering the stored refresh
token `rt0` with the pair `(fresh, rt1)`. -/
def batchEnv : Env :=
  ⟨fun tok => if tok = "stale" then .payload (some 10)
    else if tok = "fresh" then .payload (some 1000) else .nullPayload,
    100,
    fun _ rt => if rt = "rt0" then .ok (some "fresh") (some "rt1") else .fail⟩

/-- One instance with the default buffer and a failure callback. -/
def batchCfgs : List InstCfg := [⟨"ak", "rk", "u", 30, true⟩]

/-- Two concurrent `ensureFreshAccessToken` calls starting on a store
holding the stale access token and the valid refresh token. -/
def batchInit : MState :=
  ⟨fun kk => if kk = "ak" then some "stale" else if kk = "rk" then some "rt0" else none,
   [⟨false, []⟩], [⟨0, 30, .start⟩, ⟨0, 30, .start⟩], 0, 0⟩

/-- A schedule interleaving both callers: both read, the first becomes
the refreshing caller, the second enqueues, the first finishes the
refresh and settles. -/
def batchSched : List Nat := [0, 1, 0, 1, 0, 0, 0, 0, 0]

/-- Effects of the successful settle segment: the refreshing caller and
every queued waiter finish with the same token, the queue is cleared,
the in-flight flag is reset. -/
theorem settleOk_effects (env : Env) (cfgs : List InstCfg) {s : MState} {k : Nat}
    {t : Task} {a r : String} (hinv : Inv s) (hk : s.tasks.get? k = some t)
    (hph : t.phase = .leadSettleOk a r) :
    ((stepTask env cfgs s k).tasks.getD k default).phase = .done (some a) ∧
    (∀ idx ∈ (rstateOf s t.inst).queue,
      ((stepTask env cfgs s k).tasks.getD idx default).phase = .done (some a)) ∧
    (rstateOf (stepTask env cfgs s k) t.inst).queue = [] ∧
    (rstateOf (stepTask env cfgs s k) t.inst).isRefreshing = false := by
  obtain ⟨hwf, hld, hqw, hwq⟩ := hinv
  have hi0 : t.inst < s.rstates.length := hwf t (List.get?_mem hk)
  have hw2 : t.phase ≠ .waiting := by
    rw [hph]
    intro he
    cases he
  have hknq : k ∉ (rstateOf s t.inst).queue := by
    intro hin
    obtain ⟨-, -, hphx⟩ := hqw t.inst hi0 k hin
    rw [getD_of_get? hk] at hphx
    exact hw2 hphx
  have hkr : (resolveAll s.tasks (rstateOf s t.inst).queue (some a)).get? k = some t := by
    rw [resolveAll_get?, if_neg hknq]
    exact hk
  rw [stepTask_settleOk hk hph]
  refine ⟨?_, ?_, ?_, ?_⟩
  · show ((setTaskPhase (resolveAll s.tasks (rstateOf s t.inst).queue (some a)) k
        (.done (some a))).getD k default).phase = _
    rw [setTaskPhase_getD_self hkr]
  · intro idx hidx
    obtain ⟨hlt, hinst, hphx⟩ := hqw t.inst hi0 idx hidx
    have hne : idx ≠ k := by
      intro he
      subst he
      rw [getD_of_get? hk] at hphx
      exact hw2 hphx
    show ((setTaskPhase (resolveAll s.tasks (rstateOf s t.inst).queue (some a)) k
        (.done (some a))).getD idx default).phase = _
    rw [setTaskPhase_getD_ne hne, resolveAll_getD_mem hidx (get?_eq_some_getD hlt)]
  · show ((s.rstates.set t.inst ⟨false, []⟩).getD t.inst default).queue = []
    rw [set_getD_self hi0]
  · show ((s.rstates.set t.inst ⟨false, []⟩).getD t.inst default).isRefreshing = false
    rw [set_getD_self hi0]

/-- C1: single-flight refresh with broadcast.  (1) In every state
reachable from an invariant state, at most one refresh network call per
instance is in flight.  (2) A caller that decides on a stale token while
its instance is refreshing is appended to the waiter queue and moves to
`waiting`.  (3) When the refreshing caller settles successfully with
token `a`, it and every queued waiter finish with the same outcome
`some a`, the queue is drained together, and `isRefreshing` is reset to
false; (4) likewise on failure every waiter and the caller finish with
`none` and `isRefreshing` is reset.  (5) In the canonical two-caller
batch over a stale token, exactly one network refresh call is issued and
both callers observe the same new token. -/
theorem single_flight_refresh (env : Env) (cfgs : List InstCfg) :
    (∀ s0 sched i, Inv s0 → netInFlight (run env cfgs s0 sched) i ≤ 1) ∧
    (∀ s k t tok tok2 exp, Inv s → s.tasks.get? k = some t →
      t.phase = .decide tok → truthy tok = some tok2 →
      decodeJWT env tok2 = some exp → ¬exp - env.now > t.buffer →
      (rstateOf s t.inst).isRefreshing = true →
      ((stepTask env cfgs s k).tasks.getD k default).phase = .waiting ∧
      (rstateOf (stepTask env cfgs s k) t.inst).queue =
        (rstateOf s t.inst).queue ++ [k]) ∧
    (∀ s k t a r, Inv s → s.tasks.get? k = some t → t.phase = .leadSettleOk a r →
      ((stepTask env cfgs s k).tasks.getD k default).phase = .done (some a) ∧
      (∀ idx ∈ (rstateOf s t.inst).queue,
        ((stepTask env cfgs s k).tasks.getD idx default).phase = .done (some a)) ∧
      (rstateOf (stepTask env cfgs s k) t.inst).queue = [] ∧
      (rstateOf (stepTask env cfgs s k) t.inst).isRefreshing = false) ∧
    (∀ s k t, Inv s → s.tasks.get? k = some t → t.phase = .leadSettleFail →
      ((stepTask env cfgs s k).tasks.getD k default).phase = .done none ∧
      (∀ idx ∈ (rstateOf s t.inst).queue,
        ((stepTask env cfgs s k).tasks.getD idx default).phase = .done none) ∧
      (rstateOf (stepTask env cfgs s k) t.inst).queue = [] ∧
      (rstateOf (stepTask env cfgs s k) t.inst).isRefreshing = false) ∧
    ((run batchEnv batchCfgs batchInit batchSched).netCalls = 1 ∧
      (run batchEnv batchCfgs batchInit batchSched).tasks =
        [⟨0, 30, .done (some "fresh")⟩, ⟨0, 30, .done (some "fresh")⟩]) := by
  refine ⟨?_, ?_, ?_, ?_, by decide, by decide⟩
  · intro s0 sched i h0
    exact netInFlight_le_one (inv_run env cfgs s0 sched h0) i
  · intro s k t tok tok2 exp hinv hk hph htr hdec hif hrs
    obtain ⟨hwf, -, -, -⟩ := hinv
    have hi0 : t.inst < s.rstates.length := hwf t (List.get?_mem hk)
    rw [stepTask_decide_enqueue hk hph htr hdec hif hrs]
    constructor
    · show ((setTaskPhase s.tasks k .waiting).getD k default).phase = .waiting
      rw [setTaskPhase_getD_self hk]
    · show ((s.rstates.set t.inst _).getD t.inst default).queue = _
      rw [set_getD_self hi0]
  · intro s k t a r hinv hk hph
    exact settleOk_effects env cfgs hinv hk hph
  · intro s k t hinv hk hph
    obtain ⟨hwf, hld, hqw, hwq⟩ := hinv
    have hi0 : t.inst < s.rstates.length := hwf t (List.get?_mem hk)
    have hw2 : t.phase ≠ .waiting := by
      rw [hph]
      intro he
      cases he
    have hknq : k ∉ (rstateOf s t.inst).queue := by
      intro hin
      obtain ⟨-, -, hphx⟩ := hqw t.inst hi0 k hin
      rw [getD_of_get? hk] at hphx
      exact hw2 hphx
    have hkr : (resolveAll s.tasks (rstateOf s t.inst).queue none).get? k = some t := by
      rw [resolveAll_get?, if_neg hknq]
      exact hk
    rw [stepTask_settleFail hk hph]
    refine ⟨?_, ?_, ?_, ?_⟩
    · show ((setTaskPhase (resolveAll s.tasks (rstateOf s t.inst).queue none) k
          (.done none)).getD k default).phase = _
      rw [setTaskPhase_getD_self hkr]
    · intro idx hidx
      obtain ⟨hlt, hinst, hphx⟩ := hqw t.inst hi0 idx hidx
      have hne : idx ≠ k := by
        intro he
        subst he
        rw [getD_of_get? hk] at hphx
        exact hw2 hphx
      show ((setTaskPhase (resolveAll s.tasks (rstateOf s t.inst).queue none) k
          (.done none)).getD idx default).phase = _
      rw [setTaskPhase_getD_ne hne, resolveAll_getD_mem hidx (get?_eq_some_getD hlt)]
    · show ((s.rstates.set t.inst ⟨false, []⟩).getD t.inst default).queue = []
      rw [set_getD_self hi0]
    · show ((s.rstates.set t.inst ⟨false, []⟩).getD t.inst default).isRefreshing = false
      rw [set_getD_self hi0]

/-- C1 witness: the invariant holds of the canonical batch start, so the
reachable states have at most one refresh call in flight; and the second
caller of the batch, arriving while the first refreshes, is enqueued. -/
theorem single_flight_refresh_witness :
    netInFlight (run batchEnv batchCfgs batchInit batchSched) 0 ≤ 1 := by
  have hinv : Inv batchInit := by
    unfold Inv Inv2
    exact ⟨by decide, by decide, by decide, by decide⟩
  exact (single_flight_refresh batchEnv batchCfgs).1 batchInit batchSched 0 hinv

/-! ### C5: failure callback invoked once per failed refresh batch -/

/-- Environment of the three-caller failing batch: the stale token
decodes, the refresh endpoint always fails. -/
def failEnv : Env :=
  ⟨fun tok => if tok = "stale" then .payload (some 10) else .nullPayload,
    100,
    fun _ _ => .fail⟩

/-- One instance configured with a failure callback. -/
def failCfgs : List InstCfg := [⟨"ak", "rk", "u", 30, true⟩]

/-- Three concurrent calls over a stale access token and a stored
refresh token. -/
def failInit : MState :=
  ⟨fun kk => if kk = "ak" then some "stale" else if kk = "rk" then some "rt0" else none,
   [⟨false, []⟩], [⟨0, 30, .start⟩, ⟨0, 30, .start⟩, ⟨0, 30, .start⟩], 0, 0⟩

/-- All three read and decide; the first leads, the other two enqueue;
the refresh POST fails and the leader settles the whole batch. -/
def failSched : List Nat := [0, 1, 2, 0, 1, 2, 0, 0, 0]

/-- C5: the failure callback is invoked exactly once per failed refresh
batch — the settle-failure segment of the refreshing caller adds exactly
one invocation (when the callback is configured), every other segment
adds none (in particular a successful settle or a call that never
refreshes), and in a failing batch with one leader and two waiters the
callback count ends at one, not three, with all three callers receiving
null. -/
theorem refresh_failure_callback_once (env : Env) (cfgs : List InstCfg) :
    (∀ s k t, s.tasks.get? k = some t → t.phase = .leadSettleFail →
      (stepTask env cfgs s k).cbCalls =
        s.cbCalls + cbIncrement (cfgs.getD t.inst default)) ∧
    (∀ s k t, s.tasks.get? k = some t → t.phase ≠ .leadSettleFail →
      (stepTask env cfgs s k).cbCalls = s.cbCalls) ∧
    (∀ s k, s.tasks.get? k = none → (stepTask env cfgs s k).cbCalls = s.cbCalls) ∧
    ((run failEnv failCfgs failInit failSched).cbCalls = 1 ∧
      (run failEnv failCfgs failInit failSched).netCalls = 1 ∧
      (run failEnv failCfgs failInit failSched).tasks =
        [⟨0, 30, .done none⟩, ⟨0, 30, .done none⟩, ⟨0, 30, .done none⟩]) := by
  refine ⟨?_, ?_, ?_, by decide, by decide, by decide⟩
  · intro s k t hk hph
    rw [stepTask_settleFail hk hph]
  · intro s k t hk hph
    cases hp : t.phase with
    | start => rw [stepTask_start hk hp]
    | decide tok =>
      cases htr : truthy tok with
      | none => rw [stepTask_decide_falsy hk hp htr]
      | some tok2 =>
        cases hdec : decodeJWT env tok2 with
        | none => rw [stepTask_decide_nodecode hk hp htr hdec]
        | some exp =>
          by_cases hif : exp - env.now > t.buffer
          · rw [stepTask_decide_fresh hk hp htr hdec hif]
          · by_cases hrs : (rstateOf s t.inst).isRefreshing = true
            · rw [stepTask_decide_enqueue hk hp htr hdec hif hrs]
            · have hrs2 : (rstateOf s t.inst).isRefreshing = false := by
                revert hrs
                cases (rstateOf s t.inst).isRefreshing <;> simp
              rw [stepTask_decide_lead hk hp htr hdec hif hrs2]
    | leadGetRT =>
      cases hg : truthy (getItem s.store (cfgs.getD t.inst default).refreshKey) with
      | none => rw [stepTask_getRT_none hk hp hg]
      | some rt => rw [stepTask_getRT_some hk hp hg]
    | leadPost rt =>
      cases hn : env.net (cfgs.getD t.inst default).refreshUrl rt with
      | fail => rw [stepTask_post_fail hk hp hn]
      | ok a r =>
        cases hta : truthy a with
        | none => rw [stepTask_post_invalid hk hp hn (Or.inl hta)]
        | some a2 =>
          cases htb : truthy r with
          | none => rw [stepTask_post_invalid hk hp hn (Or.inr htb)]
          | some r2 => rw [stepTask_post_ok hk hp hn hta htb]
    | leadWriteAccess a r => rw [stepTask_writeA hk hp]
    | leadWriteRefresh a r => rw [stepTask_writeR hk hp]
    | leadSettleOk a r => rw [stepTask_settleOk hk hp]
    | leadSettleFail => exact absurd hp hph
    | waiting => rw [stepTask_waiting hk hp]
    | done res => rw [stepTask_done hk hp]
  · intro s k hk
    rw [stepTask_no_task hk]

/-- C5 witness: a successful settle does not invoke the callback. -/
theorem refresh_failure_callback_once_witness :
    (stepTask batchEnv batchCfgs (run batchEnv batchCfgs batchInit [0, 1, 0, 1, 0, 0, 0, 0]) 0).cbCalls =
      (run batchEnv batchCfgs batchInit [0, 1, 0, 1, 0, 0, 0, 0]).cbCalls := by
  exact (refresh_failure_callback_once batchEnv batchCfgs).2.1
    (run batchEnv batchCfgs batchInit [0, 1, 0, 1, 0, 0, 0, 0]) 0
    ⟨0, 30, .leadSettleOk "fresh" "rt1"⟩ (by decide) (by decide)

/-! ### C6: refresh state is per instance, not shared -/

/-- Two distinct instances with their own keys. -/
def isoCfgs : List InstCfg :=
  [⟨"ak", "rk", "u", 30, false⟩, ⟨"bk", "sk", "v", 30, false⟩]

/-- One starting call on each of the two instances, over the batch
store. -/
def isoInit : MState :=
  ⟨fun kk => if kk = "ak" then some "stale" else if kk = "rk" then some "rt0" else none,
   [⟨false, []⟩, ⟨false, []⟩], [⟨0, 30, .start⟩, ⟨1, 30, .start⟩], 0, 0⟩

/-- C6: the refresh state is held one per client instance, keyed by
instance identity: a segment executed by a task of one instance leaves
the refresh state (in-flight flag and waiter queue) of every other
instance unchanged, and leaves every task of every other instance
unchanged — a refresh in flight on one instance neither marks another
instance as refreshing nor enqueues or drains another instance's
waiters. -/
theorem refresh_state_isolation (env : Env) (cfgs : List InstCfg) :
    ∀ s k t j, Inv s → s.tasks.get? k = some t → j ≠ t.inst →
      rstateOf (stepTask env cfgs s k) j = rstateOf s j ∧
      (∀ idx t2, s.tasks.get? idx = some t2 → t2.inst ≠ t.inst →
        (stepTask env cfgs s k).tasks.get? idx = some t2) := by
  intro s k t j hinv hk hj
  obtain ⟨hwf, hld, hqw, hwq⟩ := hinv
  have hi0 : t.inst < s.rstates.length := hwf t (List.get?_mem hk)
  have htasks_ne : ∀ idx t2, s.tasks.get? idx = some t2 → t2.inst ≠ t.inst → idx ≠ k := by
    intro idx t2 h2 hne he
    subst he
    rw [hk] at h2
    injection h2 with h2
    exact hne (congrArg Task.inst h2.symm)
  have hsimple : ∀ ph : Phase, (∀ idx t2, s.tasks.get? idx = some t2 → t2.inst ≠ t.inst →
      (setTaskPhase s.tasks k ph).get? idx = some t2) := by
    intro ph idx t2 h2 hne
    rw [setTaskPhase_get?_ne (htasks_ne idx t2 h2 hne)]
    exact h2
  have hsettle : ∀ (res : Option String), (∀ idx t2, s.tasks.get? idx = some t2 →
      t2.inst ≠ t.inst →
      (setTaskPhase (resolveAll s.tasks (rstateOf s t.inst).queue res) k
        (.done res)).get? idx = some t2) := by
    intro res idx t2 h2 hne
    have hnq : idx ∉ (rstateOf s t.inst).queue := by
      intro hin
      obtain ⟨-, hinst, -⟩ := hqw t.inst hi0 idx hin
      rw [getD_of_get? h2] at hinst
      exact hne hinst
    rw [setTaskPhase_get?_ne (htasks_ne idx t2 h2 hne), resolveAll_get?, if_neg hnq]
    exact h2
  have hrstates_set : ∀ r : RState,
      ((s.rstates.set t.inst r).getD j default) = s.rstates.getD j default :=
    fun r => set_getD_ne hj
  cases hp : t.phase with
  | start =>
    rw [stepTask_start hk hp]
    exact ⟨rfl, hsimple _⟩
  | decide tok =>
    cases htr : truthy tok with
    | none =>
      rw [stepTask_decide_falsy hk hp htr]
      exact ⟨rfl, hsimple _⟩
    | some tok2 =>
      cases hdec : decodeJWT env tok2 with
      | none =>
        rw [stepTask_decide_nodecode hk hp htr hdec]
        exact ⟨rfl, hsimple _⟩
      | some exp =>
        by_cases hif : exp - env.now > t.buffer
        · rw [stepTask_decide_fresh hk hp htr hdec hif]
          exact ⟨rfl, hsimple _⟩
        · by_cases hrs : (rstateOf s t.inst).isRefreshing = true
          · rw [stepTask_decide_enqueue hk hp htr hdec hif hrs]
            exact ⟨hrstates_set _, hsimple _⟩
          · have hrs2 : (rstateOf s t.inst).isRefreshing = false := by
              revert hrs
              cases (rstateOf s t.inst).isRefreshing <;> simp
            rw [stepTask_decide_lead hk hp htr hdec hif hrs2]
            exact ⟨hrstates_set _, hsimple _⟩
  | leadGetRT =>
    cases hg : truthy (getItem s.store (cfgs.getD t.inst default).refreshKey) with
    | none =>
      rw [stepTask_getRT_none hk hp hg]
      exact ⟨rfl, hsimple _⟩
    | some rt =>
      rw [stepTask_getRT_some hk hp hg]
      exact ⟨rfl, hsimple _⟩
  | leadPost rt =>
    cases hn : env.net (cfgs.getD t.inst default).refreshUrl rt with
    | fail =>
      rw [stepTask_post_fail hk hp hn]
      exact ⟨rfl, hsimple _⟩
    | ok a r =>
      cases hta : truthy a with
      | none =>
        rw [stepTask_post_invalid hk hp hn (Or.inl hta)]
        exact ⟨rfl, hsimple _⟩
      | some a2 =>
        cases htb : truthy r with
        | none =>
          rw [stepTask_post_invalid hk hp hn (Or.inr htb)]
          exact ⟨rfl, hsimple _⟩
        | some r2 =>
          rw [stepTask_post_ok hk hp hn hta htb]
          exact ⟨rfl, hsimple _⟩
  | leadWriteAccess a r =>
    rw [stepTask_writeA hk hp]
    exact ⟨rfl, hsimple _⟩
  | leadWriteRefresh a r =>
    rw [stepTask_writeR hk hp]
    exact ⟨rfl, hsimple _⟩
  | leadSettleOk a r =>
    rw [stepTask_settleOk hk hp]
    exact ⟨hrstates_set _, hsettle _⟩
  | leadSettleFail =>
    rw [stepTask_settleFail hk hp]
    exact ⟨hrstates_set _, hsettle _⟩
  | waiting =>
    rw [stepTask_waiting hk hp]
    exact ⟨rfl, fun idx t2 h2 _ => h2⟩
  | done res =>
    rw [stepTask_done hk hp]
    exact ⟨rfl, fun idx t2 h2 _ => h2⟩

/-- C6 witness: a step by the instance-0 task leaves instance 1's
refresh state and task untouched. -/
theorem refresh_state_isolation_witness :
    rstateOf (stepTask batchEnv isoCfgs isoInit 0) 1 = rstateOf isoInit 1 ∧
    (stepTask batchEnv isoCfgs isoInit 0).tasks.get? 1 = some ⟨1, 30, .start⟩ := by
  have hinv : Inv isoInit := by
    unfold Inv Inv2
    exact ⟨by decide, by decide, by decide, by decide⟩
  have h := refresh_state_isolation batchEnv isoCfgs isoInit 0 ⟨0, 30, .start⟩ 1
    hinv (by decide) (by decide)
  exact ⟨h.1, h.2 1 ⟨1, 30, .start⟩ (by decide) (by decide)⟩

/-! ### C9: persist before release -/

theorem getItem_setItem_self (st : Store) (k v : String) :
    getItem (setItem st k v) k = some v := by
  simp [getItem, setItem]

theorem getItem_setItem_ne (st : Store) {k k2 : String} (v : String) (h : k2 ≠ k) :
    getItem (setItem st k v) k2 = getItem st k2 := by
  simp [getItem, setItem, h]

theorem countP_two {α : Type} (p : α → Bool) (l : List α) (i j : Nat) (a b : α)
    (hi : l.get? i = some a) (hj : l.get? j = some b) (hne : i ≠ j)
    (hpa : p a = true) (hpb : p b = true) : 2 ≤ l.countP p := by
  induction l generalizing i j with
  | nil => cases hi
  | cons hd tl ih =>
    cases i with
    | zero =>
      injection hi with hi
      subst hi
      cases j with
      | zero => exact absurd rfl hne
      | succ j2 =>
        have hj2 : tl.get? j2 = some b := hj
        have h1 : 0 < tl.countP p :=
          List.countP_pos.mpr ⟨b, List.get?_mem hj2, hpb⟩
        rw [List.countP_cons, hpa, if_pos rfl]
        omega
    | succ i2 =>
      cases j with
      | zero =>
        injection hj with hj
        subst hj
        have hi2 : tl.get? i2 = some a := hi
        have h1 : 0 < tl.countP p :=
          List.countP_pos.mpr ⟨a, List.get?_mem hi2, hpa⟩
        rw [List.countP_cons, hpb, if_pos rfl]
        omega
      | succ j2 =>
        have := ih i2 j2 hi hj (fun e => hne (by rw [e]))
        rw [List.countP_cons]
        omega

/-- Under the invariant, the refreshing caller of an instance is unique:
no second task of the same instance is in a leader phase. -/
theorem unique_leader {s : MState} (hinv : Inv s) {k idx : Nat} {t t2 : Task}
    (hk : s.tasks.get? k = some t) (h2 : s.tasks.get? idx = some t2)
    (hne : idx ≠ k) (hinst : t2.inst = t.inst)
    (hl1 : isLeaderPhase t.phase = true) : isLeaderPhase t2.phase = false := by
  by_contra hl2
  rw [Bool.not_eq_false] at hl2
  obtain ⟨hwf, hld, -, -⟩ := hinv
  have hi0 : t.inst < s.rstates.length := hwf t (List.get?_mem hk)
  have hc := countP_two (fun x => x.inst == t.inst && isLeaderPhase x.phase)
    s.tasks k idx t t2 hk h2 (fun e => hne e.symm)
    (by simp [hl1]) (by simp [hinst, hl2])
  have hb := hld t.inst hi0
  have hle : leaderCountL s.tasks t.inst ≤ 1 := by
    rw [hb]
    split <;> omega
  unfold leaderCountL at hle
  omega

/-- The persisted-pair condition of one task: a refreshing caller that
has already written the new access token (phase `leadWriteRefresh`)
finds it in storage under its `accessKey`, and one about to settle
(phase `leadSettleOk`) finds both new values in storage. -/
def taskStoreOk (cfgs : List InstCfg) (st : Store) (t : Task) : Prop :=
  match t.phase with
  | .leadWriteRefresh a _ =>
      getItem st (cfgs.getD t.inst default).accessKey = some a
  | .leadSettleOk a r =>
      getItem st (cfgs.getD t.inst default).accessKey = some a ∧
      getItem st (cfgs.getD t.inst default).refreshKey = some r
  | _ => True

/-- The persisted-pair condition over all tasks. -/
def StoreInv (cfgs : List InstCfg) (s : MState) : Prop :=
  ∀ k < s.tasks.length, taskStoreOk cfgs s.store (s.tasks.getD k default)

/-- Every segment preserves the persisted-pair condition, in the
single-instance setting with distinct storage keys: the values a
refreshing caller has written under its keys are still there when it
settles, whatever other calls were interleaved. -/
theorem storeInv_stepTask (env : Env) (cfgs : List InstCfg) (s : MState) (k : Nat)
    (hinv : Inv s) (hsi : StoreInv cfgs s)
    (hone : ∀ t2 ∈ s.tasks, t2.inst = 0)
    (hkeys : (cfgs.getD 0 default).accessKey ≠ (cfgs.getD 0 default).refreshKey) :
    StoreInv cfgs (stepTask env cfgs s k) := by
  obtain ⟨hwf, hld, hqw, hwq⟩ := hinv
  cases hk : s.tasks.get? k with
  | none =>
    rw [stepTask_no_task hk]
    exact hsi
  | some t =>
    have hi0 : t.inst < s.rstates.length := hwf t (List.get?_mem hk)
    have hinst0 : t.inst = 0 := hone t (List.get?_mem hk)
    have hsafe : ∀ (ph : Phase), taskStoreOk cfgs s.store { t with phase := ph } →
        ∀ k2, k2 < (setTaskPhase s.tasks k ph).length →
          taskStoreOk cfgs s.store ((setTaskPhase s.tasks k ph).getD k2 default) := by
      intro ph hcond k2 hlen
      rw [setTaskPhase_length] at hlen
      by_cases he : k2 = k
      · subst he
        rw [setTaskPhase_getD_self hk]
        exact hcond
      · rw [setTaskPhase_getD_ne he]
        exact hsi k2 hlen
    have hother : ∀ (st2 : Store), isLeaderPhase t.phase = true →
        ∀ k2, k2 < s.tasks.length → k2 ≠ k →
          taskStoreOk cfgs s.store (s.tasks.getD k2 default) →
          taskStoreOk cfgs st2 (s.tasks.getD k2 default) := by
      intro st2 hl1 k2 hlen2 hne hold
      have hget2 : s.tasks.get? k2 = some (s.tasks.getD k2 default) := get?_eq_some_getD hlen2
      have hinst2 : (s.tasks.getD k2 default).inst = t.inst := by
        rw [hone _ (List.get?_mem hget2), hinst0]
      have hnl := unique_leader ⟨hwf, hld, hqw, hwq⟩ hk hget2 hne hinst2 hl1
      cases hp2 : (s.tasks.getD k2 default).phase with
      | leadWriteRefresh a2 r2 =>
        rw [hp2] at hnl
        cases hnl
      | leadSettleOk a2 r2 =>
        rw [hp2] at hnl
        cases hnl
      | start => unfold taskStoreOk; rw [hp2]; trivial
      | decide tok => unfold taskStoreOk; rw [hp2]; trivial
      | leadGetRT => unfold taskStoreOk; rw [hp2]; trivial
      | leadPost rt => unfold taskStoreOk; rw [hp2]; trivial
      | leadWriteAccess a2 r2 => unfold taskStoreOk; rw [hp2]; trivial
      | leadSettleFail => unfold taskStoreOk; rw [hp2]; trivial
      | waiting => unfold taskStoreOk; rw [hp2]; trivial
      | done res => unfold taskStoreOk; rw [hp2]; trivial
    cases hp : t.phase with
    | start =>
      rw [stepTask_start hk hp]
      intro k2 hlen
      exact hsafe _ (by simp [taskStoreOk]) k2 hlen
    | decide tok =>
      cases htr : truthy tok with
      | none =>
        rw [stepTask_decide_falsy hk hp htr]
        intro k2 hlen
        exact hsafe _ (by simp [taskStoreOk]) k2 hlen
      | some tok2 =>
        cases hdec : decodeJWT env tok2 with
        | none =>
          rw [stepTask_decide_nodecode hk hp htr hdec]
          intro k2 hlen
          exact hsafe _ (by simp [taskStoreOk]) k2 hlen
        | some exp =>
          by_cases hif : exp - env.now > t.buffer
          · rw [stepTask_decide_fresh hk hp htr hdec hif]
            intro k2 hlen
            exact hsafe _ (by simp [taskStoreOk]) k2 hlen
          · by_cases hrs : (rstateOf s t.inst).isRefreshing = true
            · rw [stepTask_decide_enqueue hk hp htr hdec hif hrs]
              intro k2 hlen
              exact hsafe _ (by simp [taskStoreOk]) k2 hlen
            · have hrs2 : (rstateOf s t.inst).isRefreshing = false := by
                revert hrs
                cases (rstateOf s t.inst).isRefreshing <;> simp
              rw [stepTask_decide_lead hk hp htr hdec hif hrs2]
              intro k2 hlen
              exact hsafe _ (by simp [taskStoreOk]) k2 hlen
    | leadGetRT =>
      cases hg : truthy (getItem s.store (cfgs.getD t.inst default).refreshKey) with
      | none =>
        rw [stepTask_getRT_none hk hp hg]
        intro k2 hlen
        exact hsafe _ (by simp [taskStoreOk]) k2 hlen
      | some rt =>
        rw [stepTask_getRT_some hk hp hg]
        intro k2 hlen
        exact hsafe _ (by simp [taskStoreOk]) k2 hlen
    | leadPost rt =>
      cases hn : env.net (cfgs.getD t.inst default).refreshUrl rt with
      | fail =>
        rw [stepTask_post_fail hk hp hn]
        intro k2 hlen
        exact hsafe _ (by simp [taskStoreOk]) k2 hlen
      | ok a r =>
        cases hta : truthy a with
        | none =>
          rw [stepTask_post_invalid hk hp hn (Or.inl hta)]
          intro k2 hlen
          exact hsafe _ (by simp [taskStoreOk]) k2 hlen
        | some a2 =>
          cases htb : truthy r with
          | none =>
            rw [stepTask_post_invalid hk hp hn (Or.inr htb)]
            intro k2 hlen
            exact hsafe _ (by simp [taskStoreOk]) k2 hlen
          | some r2 =>
            rw [stepTask_post_ok hk hp hn hta htb]
            intro k2 hlen
            exact hsafe _ (by simp [taskStoreOk]) k2 hlen
    | leadWriteAccess a r =>
      rw [stepTask_writeA hk hp]
      intro k2 hlen
      rw [setTaskPhase_length] at hlen
      by_cases he : k2 = k
      · subst he
        show taskStoreOk cfgs (setItem s.store (cfgs.getD t.inst default).accessKey a)
          ((setTaskPhase s.tasks k2 (.leadWriteRefresh a r)).getD k2 default)
        rw [setTaskPhase_getD_self hk]
        show getItem (setItem s.store (cfgs.getD t.inst default).accessKey a)
          (cfgs.getD t.inst default).accessKey = some a
        exact getItem_setItem_self _ _ _
      · show taskStoreOk cfgs _ ((setTaskPhase s.tasks k (.leadWriteRefresh a r)).getD k2 default)
        rw [setTaskPhase_getD_ne he]
        exact hother _ (by rw [hp]; rfl) k2 hlen he (hsi k2 hlen)
    | leadWriteRefresh a r =>
      rw [stepTask_writeR hk hp]
      intro k2 hlen
      rw [setTaskPhase_length] at hlen
      have hklen : k < s.tasks.length := get?_some_lt hk
      by_cases he : k2 = k
      · subst he
        show taskStoreOk cfgs (setItem s.store (cfgs.getD t.inst default).refreshKey r)
          ((setTaskPhase s.tasks k2 (.leadSettleOk a r)).getD k2 default)
        rw [setTaskPhase_getD_self hk]
        have hold := hsi k2 hklen
        rw [getD_of_get? hk] at hold
        have holda : getItem s.store (cfgs.getD t.inst default).accessKey = some a := by
          unfold taskStoreOk at hold
          rw [hp] at hold
          exact hold
        constructor
        · show getItem (setItem s.store (cfgs.getD t.inst default).refreshKey r)
            (cfgs.getD t.inst default).accessKey = some a
          rw [getItem_setItem_ne _ _ (by rw [hinst0]; exact hkeys)]
          exact holda
        · exact getItem_setItem_self _ _ _
      · show taskStoreOk cfgs _ ((setTaskPhase s.tasks k (.leadSettleOk a r)).getD k2 default)
        rw [setTaskPhase_getD_ne he]
        exact hother _ (by rw [hp]; rfl) k2 hlen he (hsi k2 hlen)
    | leadSettleOk a r =>
      have hw2 : t.phase ≠ .waiting := by
        rw [hp]
        intro he
        cases he
      have hknq : k ∉ (rstateOf s t.inst).queue := by
        intro hin
        obtain ⟨-, -, hphx⟩ := hqw t.inst hi0 k hin
        rw [getD_of_get? hk] at hphx
        exact hw2 hphx
      have hkr : (resolveAll s.tasks (rstateOf s t.inst).queue (some a)).get? k = some t := by
        rw [resolveAll_get?, if_neg hknq]
        exact hk
      rw [stepTask_settleOk hk hp]
      intro k2 hlen
      rw [setTaskPhase_length, resolveAll_length] at hlen
      by_cases he : k2 = k
      · subst he
        show taskStoreOk cfgs s.store
          ((setTaskPhase (resolveAll s.tasks (rstateOf s t.inst).queue (some a)) k2
            (.done (some a))).getD k2 default)
        rw [setTaskPhase_getD_self hkr]
        simp [taskStoreOk]
      · show taskStoreOk cfgs s.store
          ((setTaskPhase (resolveAll s.tasks (rstateOf s t.inst).queue (some a)) k
            (.done (some a))).getD k2 default)
        rw [setTaskPhase_getD_ne he]
        by_cases hq : k2 ∈ (rstateOf s t.inst).queue
        · rw [resolveAll_getD_mem hq (get?_eq_some_getD hlen)]
          simp [taskStoreOk]
        · rw [resolveAll_getD_not_mem hq]
          exact hsi k2 hlen
    | leadSettleFail =>
      have hw2 : t.phase ≠ .waiting := by
        rw [hp]
        intro he
        cases he
      have hknq : k ∉ (rstateOf s t.inst).queue := by
        intro hin
        obtain ⟨-, -, hphx⟩ := hqw t.inst hi0 k hin
        rw [getD_of_get? hk] at hphx
        exact hw2 hphx
      have hkr : (resolveAll s.tasks (rstateOf s t.inst).queue none).get? k = some t := by
        rw [resolveAll_get?, if_neg hknq]
        exact hk
      rw [stepTask_settleFail hk hp]
      intro k2 hlen
      rw [setTaskPhase_length, resolveAll_length] at hlen
      by_cases he : k2 = k
      · subst he
        show taskStoreOk cfgs s.store
          ((setTaskPhase (resolveAll s.tasks (rstateOf s t.inst).queue none) k2
            (.done none)).getD k2 default)
        rw [setTaskPhase_getD_self hkr]
        simp [taskStoreOk]
      · show taskStoreOk cfgs s.store
          ((setTaskPhase (resolveAll s.tasks (rstateOf s t.inst).queue none) k
            (.done none)).getD k2 default)
        rw [setTaskPhase_getD_ne he]
        by_cases hq : k2 ∈ (rstateOf s t.inst).queue
        · rw [resolveAll_getD_mem hq (get?_eq_some_getD hlen)]
          simp [taskStoreOk]
        · rw [resolveAll_getD_not_mem hq]
          exact hsi k2 hlen
    | waiting =>
      rw [stepTask_waiting hk hp]
      exact hsi
    | done res =>
      rw [stepTask_done hk hp]
      exact hsi

instance taskStoreOk_decidable (cfgs : List InstCfg) (st : Store) (t : Task) :
    Decidable (taskStoreOk cfgs st t) := by
  unfold taskStoreOk
  cases t.phase <;> infer_instance

/-- C9: persist before release.  (1) The segment after the refresh
response persists the new access token under `accessKey` and only then
moves on; (2) the next segment persists the new refresh token under
`refreshKey` and only then reaches the settle segment — so both values
are written before the refreshing caller returns and before any waiter
is resolved, which happens only in the settle segment; (3) the
persisted-pair condition survives every interleaved segment (single
instance, distinct keys); (4) at the settle segment both values are
already in storage, and the token the caller returns and broadcasts to
every queued waiter is exactly the persisted access-token string. -/
theorem persist_before_release (env : Env) (cfgs : List InstCfg) :
    (∀ s k t a r, s.tasks.get? k = some t → t.phase = .leadWriteAccess a r →
      getItem (stepTask env cfgs s k).store (cfgs.getD t.inst default).accessKey = some a ∧
      ((stepTask env cfgs s k).tasks.getD k default).phase = .leadWriteRefresh a r) ∧
    (∀ s k t a r, s.tasks.get? k = some t → t.phase = .leadWriteRefresh a r →
      getItem (stepTask env cfgs s k).store (cfgs.getD t.inst default).refreshKey = some r ∧
      ((stepTask env cfgs s k).tasks.getD k default).phase = .leadSettleOk a r) ∧
    (∀ s k, Inv s → StoreInv cfgs s → (∀ t2 ∈ s.tasks, t2.inst = 0) →
      (cfgs.getD 0 default).accessKey ≠ (cfgs.getD 0 default).refreshKey →
      StoreInv cfgs (stepTask env cfgs s k)) ∧
    (∀ s k t a r, Inv s → StoreInv cfgs s → s.tasks.get? k = some t →
      t.phase = .leadSettleOk a r →
      getItem s.store (cfgs.getD t.inst default).accessKey = some a ∧
      getItem s.store (cfgs.getD t.inst default).refreshKey = some r ∧
      ((stepTask env cfgs s k).tasks.getD k default).phase = .done (some a) ∧
      (∀ idx ∈ (rstateOf s t.inst).queue,
        ((stepTask env cfgs s k).tasks.getD idx default).phase = .done (some a))) := by
  refine ⟨?_, ?_, ?_, ?_⟩
  · intro s k t a r hk hph
    rw [stepTask_writeA hk hph]
    constructor
    · exact getItem_setItem_self _ _ _
    · show ((setTaskPhase s.tasks k (.leadWriteRefresh a r)).getD k default).phase = _
      rw [setTaskPhase_getD_self hk]
  · intro s k t a r hk hph
    rw [stepTask_writeR hk hph]
    constructor
    · exact getItem_setItem_self _ _ _
    · show ((setTaskPhase s.tasks k (.leadSettleOk a r)).getD k default).phase = _
      rw [setTaskPhase_getD_self hk]
  · intro s k hinv hsi hone hkeys
    exact storeInv_stepTask env cfgs s k hinv hsi hone hkeys
  · intro s k t a r hinv hsi hk hph
    have hklen : k < s.tasks.length := get?_some_lt hk
    have hcond := hsi k hklen
    rw [getD_of_get? hk] at hcond
    unfold taskStoreOk at hcond
    rw [hph] at hcond
    have heff := settleOk_effects env cfgs hinv hk hph
    exact ⟨hcond.1, hcond.2, heff.1, heff.2.1⟩

/-- C9 witness: at the settle segment of the canonical batch the new
pair is already persisted, and leader and waiter both finish with the
persisted token. -/
theorem persist_before_release_witness :
    getItem (run batchEnv batchCfgs batchInit [0, 1, 0, 1, 0, 0, 0, 0]).store "ak" = some "fresh" ∧
    getItem (run batchEnv batchCfgs batchInit [0, 1, 0, 1, 0, 0, 0, 0]).store "rk" = some "rt1" ∧
    ((stepTask batchEnv batchCfgs (run batchEnv batchCfgs batchInit [0, 1, 0, 1, 0, 0, 0, 0]) 0).tasks.getD 0 default).phase = .done (some "fresh") := by
  have hinv : Inv (run batchEnv batchCfgs batchInit [0, 1, 0, 1, 0, 0, 0, 0]) := by
    unfold Inv Inv2
    exact ⟨by decide, by decide, by decide, by decide⟩
  have hsi : StoreInv batchCfgs (run batchEnv batchCfgs batchInit [0, 1, 0, 1, 0, 0, 0, 0]) := by
    unfold StoreInv
    decide
  have h := (persist_before_release batchEnv batchCfgs).2.2.2
    (run batchEnv batchCfgs batchInit [0, 1, 0, 1, 0, 0, 0, 0]) 0
    ⟨0, 30, .leadSettleOk "fresh" "rt1"⟩ "fresh" "rt1" hinv hsi (by decide) rfl
  exact ⟨h.1, h.2.1, h.2.2.1⟩

end AxiosSpring
